import Mathlib

/-!
Shallow embedding of the device-node materialization stage of udev
(`udev_add.c`) and of the klibc user/group lookup shims
(`klibc_fixups/klibc_fixups.c`), together with proofs checking the
natural-language specification of the repository against the code.

Strings from the C code are modelled as `List Char`; the filesystem is an
association list from paths to entries; every mutating system call is
recorded in an explicit action trace; system-call failures (mknod, chmod,
chown, the rename ioctl, ...) are injected through an oracle structure so
that the error-handling paths of the code can be analysed.  External
collaborators that are not part of the two source files (the naming engine,
the persistence database, the selinux labeling subsystem, `create_path`,
`strintcat`, the pw/gr lookups used by `create_node`) appear as oracle
parameters or as trace actions, following the specification's description
of them.
-/

set_option linter.unusedVariables false
set_option linter.unreachableTactic false
set_option linter.unusedTactic false
set_option linter.unnecessarySimpa false

abbrev Str := List Char

/-- File-type bits, octal 0170000. -/
def S_IFMT : Nat := 61440

/-- Block-device type bits, octal 0060000. -/
def S_IFBLK : Nat := 24576

/-- Character-device type bits, octal 0020000. -/
def S_IFCHR : Nat := 8192

/-- FIFO type bits, octal 0010000. -/
def S_IFIFO : Nat := 4096

/-- Symlink type bits, octal 0120000. -/
def S_IFLNK : Nat := 40960

/-- Classic Linux `makedev`: device number from major/minor. -/
def makedev (major minor : Nat) : Nat := major * 256 + minor

/-- One filesystem object: its type bits, device number, permission bits,
ownership, inode number and (for symlinks) the link target. -/
structure FSEntry where
  ifmt : Nat
  rdev : Nat
  perm : Nat
  uid : Nat
  gid : Nat
  ino : Nat
  linkTarget : Str
deriving DecidableEq, Repr

/-- The filesystem state: an association list from absolute paths to
entries, plus a counter supplying fresh inode numbers. -/
structure FS where
  entries : List (Str × FSEntry)
  nextIno : Nat
deriving DecidableEq, Repr

/-- Lookup (the `stat` view) in the association list. -/
def fsGet : List (Str × FSEntry) → Str → Option FSEntry
  | [], _ => none
  | (q, e) :: rest, p => if q = p then some e else fsGet rest p

/-- Store an entry: replace in place if the key is present, append otherwise. -/
def fsStore : List (Str × FSEntry) → Str → FSEntry → List (Str × FSEntry)
  | [], p, ent => [(p, ent)]
  | (q, e) :: rest, p, ent =>
    if q = p then (p, ent) :: rest else (q, e) :: fsStore rest p ent

/-- Remove a path (the `unlink` view). -/
def fsErase : List (Str × FSEntry) → Str → List (Str × FSEntry)
  | [], _ => []
  | (q, e) :: rest, p => if q = p then fsErase rest p else (q, e) :: fsErase rest p

/-- Success/failure injection for the fallible system calls and external
collaborators used by `udev_add.c`. -/
structure Syscalls where
  mknodOK : Bool
  chmodOK : Bool
  chownOK : Bool
  symlinkOK : Bool
  socketOK : Bool
  renameOK : Bool
  dbOK : Bool
deriving DecidableEq, Repr

/-- The oracle in which every call succeeds. -/
def allOK : Syscalls := ⟨true, true, true, true, true, true, true⟩

/-- Observable actions performed by the pipeline, in program order.
`mkdirp` is `create_path`, `renameIf` the SIOCSIFNAME ioctl, `dbAdd` the
persistence collaborator, `naming` the naming collaborator call. -/
inductive Act where
  | mkdirp (p : Str)
  | unlink (p : Str)
  | mknod (p : Str) (mode : Nat) (dev : Nat)
  | chmod (p : Str) (mode : Nat)
  | chown (p : Str) (uid gid : Nat)
  | symlinkA (target p : Str)
  | setfscreatecon (p : Str) (mode : Nat)
  | setfilecon (p : Str) (mode : Nat)
  | socketOpen
  | renameIf (oldName newName : Str)
  | setenvA (v : Str)
  | dbAdd
  | naming
  | selinuxInit
  | selinuxRestore
deriving DecidableEq, Repr

/-- Result of `make_node`: C return value, filesystem after the call, and
the trace of attempted actions. -/
structure MNRes where
  ret : Int
  fs : FS
  trace : List Act
deriving DecidableEq, Repr

/-- `chmod` effect on the filesystem: permission bits (low 12 bits of the
requested mode) are applied to an existing entry. -/
def chmodFS (fs : FS) (file : Str) (mode : Nat) : FS :=
  match fsGet fs.entries file with
  | none => fs
  | some e => { fs with entries := fsStore fs.entries file { e with perm := mode % 4096 } }

/-- `chown` effect on the filesystem. -/
def chownFS (fs : FS) (file : Str) (uid gid : Nat) : FS :=
  match fsGet fs.entries file with
  | none => fs
  | some e => { fs with entries := fsStore fs.entries file { e with uid := uid, gid := gid } }

/-- The `perms:` section of `make_node` (udev_add.c:101-118): chmod, then
chown when owner or group is non-root; a failing call jumps to `exit:`
leaving `retval` unchanged. -/
def makeNodePerms (fs : FS) (env : Syscalls) (file : Str) (mode : Nat)
    (uid gid : Nat) (retval : Int) (tr : List Act) : MNRes :=
  let tr1 := tr ++ [Act.chmod file mode]
  if env.chmodOK then
    let fs1 := chmodFS fs file mode
    if uid ≠ 0 ∨ gid ≠ 0 then
      let tr2 := tr1 ++ [Act.chown file uid gid]
      if env.chownOK then ⟨retval, chownFS fs1 file uid gid, tr2⟩
      else ⟨retval, fs1, tr2⟩
    else ⟨retval, fs1, tr1⟩
  else ⟨retval, fs, tr1⟩

/-- The `create:` section of `make_node` (udev_add.c:92-99): set the
labeling context, `mknod`, and on success fall through to the `perms:`
section.  A fresh inode number is allocated on success. -/
def makeNodeCreate (fs : FS) (env : Syscalls) (file : Str)
    (major minor : Nat) (mode : Nat) (uid gid : Nat) (tr : List Act) : MNRes :=
  let tr1 := tr ++ [Act.setfscreatecon file mode,
                    Act.mknod file mode (makedev major minor)]
  if env.mknodOK then
    let ent : FSEntry :=
      ⟨mode &&& S_IFMT, makedev major minor, mode % 4096, 0, 0, fs.nextIno, []⟩
    makeNodePerms ⟨fsStore fs.entries file ent, fs.nextIno + 1⟩ env file mode uid gid 0 tr1
  else ⟨-1, fs, tr1⟩

/-- `make_node` (udev_add.c:71-119): stat the target; preserve an existing
block/char node that already has the requested device number (re-applying
the label), otherwise unlink whatever is there and create a fresh node;
then apply permissions and (if non-root) ownership. -/
def make_node (fs : FS) (env : Syscalls) (file : Str) (major minor : Nat)
    (mode : Nat) (uid gid : Nat) : MNRes :=
  match fsGet fs.entries file with
  | none => makeNodeCreate fs env file major minor mode uid gid []
  | some st =>
    if (st.ifmt = S_IFBLK ∨ st.ifmt = S_IFCHR) ∧ st.rdev = makedev major minor then
      makeNodePerms fs env file mode uid gid 0 [Act.setfilecon file (st.ifmt + st.perm)]
    else
      makeNodeCreate ⟨fsErase fs.entries file, fs.nextIno⟩ env file major minor mode uid gid
        [Act.unlink file]

example :
    (make_node ⟨[], 0⟩ allOK ['a'] 8 1 25008 0 0).ret = 0 := by decide

example :
    (make_node ⟨[], 0⟩ { allOK with mknodOK := false } ['a'] 8 1 25008 0 0).ret = -1 := by
  decide

example :
    fsGet (make_node ⟨[], 0⟩ allOK ['a'] 8 1 25008 5 6).fs.entries ['a'] =
      some ⟨S_IFBLK, makedev 8 1, 432, 5, 6, 0, []⟩ := by decide

/-- The common-prefix scan of `create_node`'s symlink-target optimizer
(udev_add.c:223-229): walk `name` and `linkname` while their characters
agree; `i` counts the matched characters and `tail` is the index just past
the last matched `'/'`. -/
def scanIT : List Char → List Char → Nat → Nat → Nat × Nat
  | a :: as, b :: bs, i, tail =>
    if a = b then scanIT as bs (i + 1) (if a = '/' then i + 1 else tail)
    else (i, tail)
  | _, _, i, tail => (i, tail)

/-- The second loop of the optimizer (udev_add.c:230-234): one `"../"` for
every `'/'` remaining in the link name past the scan position. -/
def mkdots : List Char → List Char
  | [] => []
  | c :: cs => (if c = '/' then ['.', '.', '/'] else []) ++ mkdots cs

/-- The relative symlink target computed by `create_node`
(udev_add.c:221-236): the `"../"` chain followed by the suffix of `name`
past the last shared `'/'`. -/
def linktarget (name link : List Char) : List Char :=
  mkdots (link.drop (scanIT name link 0 0).1) ++ name.drop (scanIT name link 0 0).2

example : linktarget "disk/sda".toList "disk/by-id/foo".toList = "../sda".toList := by
  decide

/-- Split a character list at every occurrence of `sep` (used for `'/'`
path segments, `':'` passwd fields and newline-separated lines). -/
def splitOnChar (sep : Char) : List Char → List (List Char)
  | [] => [[]]
  | c :: cs =>
    if c = sep then [] :: splitOnChar sep cs
    else
      match splitOnChar sep cs with
      | [] => [[c]]
      | t :: ts => (c :: t) :: ts

/-- Path segments of a string. -/
def splitPath (s : Str) : List Str := splitOnChar '/' s

/-- Join path segments with `'/'`. -/
def joinPath : List Str → Str
  | [] => []
  | [s] => s
  | s :: rest => s ++ '/' :: joinPath rest

/-- POSIX-style resolution of a relative path, segment by segment, from a
directory given as a segment list: `".."` pops one directory (failing above
the base), `"."` and empty segments are skipped, anything else descends. -/
def resolve : List Str → List Str → Option (List Str)
  | dir, [] => some dir
  | dir, seg :: rest =>
    if seg = ['.', '.'] then
      match dir with
      | [] => none
      | _ :: _ => resolve dir.dropLast rest
    else if seg = ['.'] then resolve dir rest
    else if seg = [] then resolve dir rest
    else resolve (dir ++ [seg]) rest

/-- A canonical path segment: nonempty, no separator, not a dot segment. -/
def validSeg (s : Str) : Prop := s ≠ [] ∧ '/' ∉ s ∧ s ≠ ['.'] ∧ s ≠ ['.', '.']

instance (s : Str) : Decidable (validSeg s) := by
  unfold validSeg; infer_instance

example :
    resolve ["disk".toList, "by-id".toList]
      (splitPath (linktarget "disk/sda".toList "disk/by-id/foo".toList)) =
      some ["disk".toList, "sda".toList] := by decide

/-- Decimal digit character. -/
def digitChar : Nat → Char
  | 0 => '0' | 1 => '1' | 2 => '2' | 3 => '3' | 4 => '4'
  | 5 => '5' | 6 => '6' | 7 => '7' | 8 => '8' | _ => '9'

/-- Fuelled digit expansion (structural recursion so that concrete values
reduce in the kernel). -/
def decCharsAux : Nat → Nat → List Char
  | 0, _ => []
  | fuel + 1, n =>
    if n < 10 then [digitChar n]
    else decCharsAux fuel (n / 10) ++ [digitChar (n % 10)]

/-- Decimal representation of a natural number, as appended by `strintcat`
in the partition loop of `create_node`. -/
def decChars (n : Nat) : List Char := decCharsAux (n + 1) n

example : decChars 10 = ['1', '0'] := by decide
example : decChars 3 = ['3'] := by decide

/-- The device descriptor `struct udevice` (fields used by udev_add.c). -/
structure UDevice where
  kernel_name : Str
  name : Str
  devpath : Str
  devname : Str
  dtype : Char
  major : Nat
  minor : Nat
  mode : Nat
  owner : Str
  group : Str
  symlink : Str
  partitions : Int
  test_run : Bool
deriving DecidableEq, Repr

/-- `isspace` for the characters relevant to the `"dev"` attribute text. -/
def isSpaceC (c : Char) : Bool :=
  c = ' ' ∨ c = '\t' ∨ c = '\n' ∨ c = '\r'

/-- Value of a decimal digit string (most significant first). -/
def digitsVal (cs : List Char) : Nat :=
  cs.foldl (fun a c => a * 10 + (c.toNat - 48)) 0

/-- `ULONG_MAX` on an LP64 target: the value of `(unsigned long)-1`. -/
def ULONG_MAX : Nat := 18446744073709551615

/-- The value `strtoul` produces from a digit run: clamped to `ULONG_MAX`
on overflow, and negated in unsigned-long arithmetic when the subject
sequence began with a minus sign. -/
def ulongOf (neg : Bool) (v : Nat) : Nat :=
  if ULONG_MAX < v then ULONG_MAX
  else if neg then (ULONG_MAX + 1 - v) % (ULONG_MAX + 1)
  else v

/-- The digit-run stage of `strtoul`: `none` when no digit follows (no
conversion is performed), otherwise the converted value together with the
remainder of the text past the digits (`endptr`). -/
def strtoulDigits (neg : Bool) (s2 : Str) : Option (Nat × Str) :=
  let ds := s2.takeWhile Char.isDigit
  if ds = [] then none
  else some (ulongOf neg (digitsVal ds), s2.dropWhile Char.isDigit)

/-- `strtoul(s, &endptr, 10)` (also the subject sequence of scanf's `%u`):
optional whitespace, an optional `'+'`/`'-'` sign, then a digit run.
`none` means no conversion was performed (`endptr` stays at the start). -/
def strtoul10 (s : Str) : Option (Nat × Str) :=
  let s1 := s.dropWhile isSpaceC
  match s1 with
  | '-' :: r => strtoulDigits true r
  | '+' :: r => strtoulDigits false r
  | _ => strtoulDigits false s1

/-- `sscanf(value, "%u:%u", &major, &minor)` (udev_add.c:62): each `%u`
converts like `strtoul` base 10 (optional whitespace and sign), storing
into its unsigned-int target (32-bit truncation) as soon as the conversion
succeeds; the literal `':'` must match exactly.  Returns the number of
completed conversions together with the (possibly partially updated)
major/minor values. -/
def scanMajorMinor (s : Str) (major minor : Nat) : Nat × Nat × Nat :=
  match strtoul10 s with
  | none => (0, major, minor)
  | some (v1, r1) =>
    let ma := v1 % 4294967296
    match r1 with
    | ':' :: r2 =>
      match strtoul10 r2 with
      | none => (1, ma, minor)
      | some (v2, _) => (2, ma, v2 % 4294967296)
    | _ => (1, ma, minor)

/-- `get_major_minor` (udev_add.c:53-69): read the sysfs `"dev"` attribute
(`none` models a missing attribute) and parse it as `"%u:%u"`; any result
other than two conversions is a failure (-1). -/
def get_major_minor (attrDev : Option Str) (u : UDevice) : Int × UDevice :=
  match attrDev with
  | none => (-1, u)
  | some v =>
    let r := scanMajorMinor v u.major u.minor
    let u1 := { u with major := r.2.1, minor := r.2.2 }
    if r.1 ≠ 2 then (-1, u1) else (0, u1)

example :
    (get_major_minor (some "8:1".toList)
      ⟨[], [], [], [], 'b', 0, 0, 0, [], [], [], 0, false⟩).1 = 0 := by decide

/-- The node-type switch of `create_node` (udev_add.c:135-149): type bits
OR'ed into the descriptor mode, or `none` for an unknown node type. -/
def typeBits : Char → Option Nat
  | 'b' => some S_IFBLK
  | 'c' => some S_IFCHR
  | 'u' => some S_IFCHR
  | 'p' => some S_IFIFO
  | _ => none

/-- `strrchr(s, '/') != NULL`. -/
def containsSlash (s : Str) : Bool := s.contains '/'

/-- Owner/group resolution of `create_node` (udev_add.c:155-183):
`strtoul(owner, &endptr, 10)` with `endptr[0] == '\0'` — a string that is
entirely one numeric subject sequence is used directly (cast to the 32-bit
id type), otherwise the name is looked up; an unknown name leaves the id
at 0. -/
def resolveId (idstr : Str) (lookup : Str → Option Nat) : Nat :=
  match strtoul10 idstr with
  | some (id, rest) =>
    if rest = [] then id % 4294967296
    else
      match lookup idstr with
      | none => 0
      | some v => v
  | none =>
    match lookup idstr with
    | none => 0
    | some v => v

/-- Tokenizer for the space-separated `symlink` list (`foreach_strpart`). -/
def splitTokens (s : Str) : List Str :=
  (splitOnChar ' ' s).filter (fun t => t ≠ [])

/-- Result of `create_node` / `udev_add_device`: C return value, filesystem,
descriptor, and action trace. -/
structure CNRes where
  ret : Int
  fs : FS
  udev : UDevice
  trace : List Act
deriving DecidableEq, Repr

/-- The partition loop of `create_node` (udev_add.c:199-203): for
`i = 1..partitions`, make a node at the primary path with the decimal index
appended and minor offset by `i`; the `make_node` return value is ignored. -/
def partLoop (env : Syscalls) (filename : Str) (major minor mode uid gid : Nat) :
    Nat → Nat → FS → List Act → FS × List Act
  | 0, _, fs, tr => (fs, tr)
  | k + 1, i, fs, tr =>
    let r := make_node fs env (filename ++ decChars i) major (minor + i) mode uid gid
    partLoop env filename major minor mode uid gid k (i + 1) r.fs (tr ++ r.trace)

/-- The symlink loop of `create_node` (udev_add.c:208-246): for each token,
create parent directories when needed (outside test mode), compute the
relative target, and (outside test mode) set the label context, unlink any
existing entry and create the symlink; a symlink failure is only logged. -/
def symLoop (root : Str) (env : Syscalls) (name : Str) (testRun : Bool) :
    List Str → FS → List Act → FS × List Act
  | [], fs, tr => (fs, tr)
  | ln :: rest, fs, tr =>
    let fname := root ++ '/' :: ln
    let tr1 := tr ++ (if testRun = false ∧ containsSlash ln then [Act.mkdirp fname] else [])
    let target := linktarget name ln
    if testRun = false then
      let fsA : FS := ⟨fsErase fs.entries fname, fs.nextIno⟩
      let trA := tr1 ++ [Act.setfscreatecon fname S_IFLNK, Act.unlink fname,
                         Act.symlinkA target fname]
      let fsB : FS :=
        if env.symlinkOK then
          ⟨fsStore fsA.entries fname ⟨S_IFLNK, 0, 0, 0, 0, fsA.nextIno, target⟩,
           fsA.nextIno + 1⟩
        else fsA
      symLoop root env name testRun rest fsB trA
    else symLoop root env name testRun rest fs tr1

/-- `create_node` (udev_add.c:121-251): build the primary path, fold the
type bits into the descriptor mode, create parent directories for nested
names (note: not guarded by `test_run`), resolve owner/group, materialize
the primary node (skipped in test mode; failure aborts), then the partition
nodes and the symlinks. -/
def create_node (root : Str) (fs : FS) (env : Syscalls)
    (pwLookup grLookup : Str → Option Nat) (u : UDevice) : CNRes :=
  let filename := root ++ '/' :: u.name
  match typeBits u.dtype with
  | none => ⟨-22, fs, u, []⟩
  | some bits =>
    let u1 := { u with mode := u.mode ||| bits }
    let tr0 : List Act := if containsSlash u1.name then [Act.mkdirp filename] else []
    let uid := if u1.owner ≠ [] then resolveId u1.owner pwLookup else 0
    let gid := if u1.group ≠ [] then resolveId u1.group grLookup else 0
    let primary : Int × FS × List Act :=
      if u1.test_run = false then
        let r := make_node fs env filename u1.major u1.minor u1.mode uid gid
        if r.ret ≠ 0 then (-1, r.fs, tr0 ++ r.trace) else (0, r.fs, tr0 ++ r.trace)
      else (0, fs, tr0)
    if primary.1 ≠ 0 then ⟨-1, primary.2.1, u1, primary.2.2⟩
    else
      let parts : FS × List Act :=
        if 0 < u1.partitions ∧ u1.test_run = false then
          partLoop env filename u1.major u1.minor u1.mode uid gid
            u1.partitions.toNat 1 primary.2.1 primary.2.2
        else (primary.2.1, primary.2.2)
      let links := symLoop root env u1.name u1.test_run (splitTokens u1.symlink)
        parts.1 parts.2
      ⟨0, links.1, u1, links.2⟩

/-- `rename_net_if` (udev_add.c:253-279): a no-op success in test mode;
otherwise open a control socket (failure returns -1), issue the
SIOCSIFNAME ioctl and report its result. -/
def rename_net_if (u : UDevice) (env : Syscalls) : Int × List Act :=
  if u.test_run then (0, [])
  else if env.socketOK = false then (-1, [Act.socketOpen])
  else ((if env.renameOK then 0 else -1),
        [Act.socketOpen, Act.renameIf u.kernel_name u.name])

/-- Fields filled into the descriptor by the naming collaborator.
Modelled from the spec: `namedev_name_device` is external to the two
source files; per the specification it fills name, owner, group, mode,
symlink list and partition count, or fails. -/
structure NamingResult where
  name : Str
  owner : Str
  group : Str
  mode : Nat
  symlink : Str
  partitions : Int
deriving DecidableEq, Repr

/-- Apply the naming collaborator's decision to the descriptor. -/
def applyNaming (u : UDevice) (nr : NamingResult) : UDevice :=
  { u with name := nr.name, owner := nr.owner, group := nr.group,
           mode := nr.mode, symlink := nr.symlink, partitions := nr.partitions }

/-- Characters of `s` up to and including its last `'/'`. -/
def upToLastSlash (s : Str) : Str :=
  ((s.reverse.dropWhile (fun c => c ≠ '/')).reverse)

/-- The steps of `udev_add_device` after major/minor resolution
(udev_add.c:294-341): naming (failure exits with the current 0 return
value), selinux init, then the block/char node branch or the network
rename branch, and the unconditional selinux restore. -/
def addAfterMM (root : Str) (fs : FS) (env : Syscalls)
    (pwLookup grLookup : Str → Option Nat)
    (nres : Option NamingResult) (u1 : UDevice) : CNRes :=
  match nres with
  | none => ⟨0, fs, u1, [Act.naming, Act.selinuxRestore]⟩
  | some nr =>
    let u2 := applyNaming u1 nr
    let pre := [Act.naming, Act.selinuxInit]
    if u2.dtype = 'b' ∨ u2.dtype = 'c' then
      let c := create_node root fs env pwLookup grLookup u2
      if c.ret ≠ 0 then ⟨c.ret, c.fs, c.udev, pre ++ c.trace ++ [Act.selinuxRestore]⟩
      else
        let u3 := { c.udev with devname := root ++ '/' :: c.udev.name }
        ⟨0, c.fs, u3, pre ++ c.trace ++ [Act.dbAdd, Act.selinuxRestore]⟩
    else if u2.dtype = 'n' then
      if u2.name ≠ u2.kernel_name then
        let rn := rename_net_if u2 env
        if rn.1 ≠ 0 then ⟨rn.1, fs, u2, pre ++ rn.2 ++ [Act.selinuxRestore]⟩
        else
          let u3 :=
            if containsSlash u2.devpath then
              { u2 with devpath := upToLastSlash u2.devpath ++ u2.name }
            else u2
          let u4 := { u3 with devname := u3.name }
          let strace := if containsSlash u2.devpath then [Act.setenvA u3.devpath] else []
          ⟨0, fs, u4, pre ++ rn.2 ++ strace ++ [Act.selinuxRestore]⟩
      else ⟨0, fs, u2, pre ++ [Act.selinuxRestore]⟩
    else ⟨0, fs, u2, pre ++ [Act.selinuxRestore]⟩

/-- `udev_add_device` (udev_add.c:281-341): for block/char descriptors
resolve major/minor first — a resolution failure is a successful no-op —
then run the naming/creation/rename pipeline. -/
def udev_add_device (root : Str) (fs : FS) (env : Syscalls)
    (pwLookup grLookup : Str → Option Nat) (attrDev : Option Str)
    (nres : Option NamingResult) (u : UDevice) : CNRes :=
  if u.dtype = 'b' ∨ u.dtype = 'c' then
    let g := get_major_minor attrDev u
    if g.1 ≠ 0 then ⟨0, fs, g.2, []⟩
    else addAfterMM root fs env pwLookup grLookup nres g.2
  else addAfterMM root fs env pwLookup grLookup nres u

/-- `LINE_SIZE` from udev.h (the line buffer bound used by the db-file
reader). -/
def LINE_SIZE : Nat := 512

/-- The per-line body of `get_id_by_name` (klibc_fixups.c:62-95): skip
over-long lines, split the line at `':'` (`strsep`), require the name,
password and id fields, and on a name match convert the id with `strtoul`,
falling back to the `(unsigned long)-1` sentinel when `tail[0] != '\0'`:
when characters remain past the converted digits, or when no conversion
happened on a nonempty id text (`tail` stays at its start).  `none` means
the loop continues with the next line; `some id` means the loop breaks
with that id. -/
def lineId (uname line : Str) : Option Nat :=
  if LINE_SIZE ≤ line.length then none
  else
    match splitOnChar ':' line with
    | nm :: _pass :: idstr :: _ =>
      if nm = uname then
        some (match strtoul10 idstr with
              | some (id, rest) => if rest = [] then id else ULONG_MAX
              | none => if idstr = [] then 0 else ULONG_MAX)
      else none
    | _ => none

/-- The line loop of `get_id_by_name`. -/
def ginLoop (uname : Str) : List Str → Nat
  | [] => ULONG_MAX
  | line :: rest =>
    match lineId uname line with
    | some id => id
    | none => ginLoop uname rest

/-- `get_id_by_name` (klibc_fixups.c:40-100): map the db file (`none`
models a `file_map` failure, returning the `(unsigned long)-1` sentinel),
split it into newline-separated lines and scan them for the name. -/
def get_id_by_name (uname : Str) (dbfile : Option Str) : Nat :=
  match dbfile with
  | none => ULONG_MAX
  | some content => ginLoop uname (splitOnChar '\n' content)

/-- `struct passwd` (the single field the shim fills). -/
structure PasswdRec where
  pw_uid : Nat
deriving DecidableEq, Repr

/-- `struct group` (the single field the shim fills). -/
structure GroupRec where
  gr_gid : Nat
deriving DecidableEq, Repr

/-- `getpwnam` shim (klibc_fixups.c:103-113): cast the looked-up id to the
unsigned 32-bit `uid_t` and return NULL when `pw.pw_uid < 0` — a comparison
of an unsigned value against zero. -/
def getpwnam (pwFile : Option Str) (name : Str) : Option PasswdRec :=
  let uid : Nat := get_id_by_name name pwFile % 4294967296
  if uid < 0 then none else some ⟨uid⟩

/-- `getgrnam` shim (klibc_fixups.c:115-125). -/
def getgrnam (grFile : Option Str) (name : Str) : Option GroupRec :=
  let gid : Nat := get_id_by_name name grFile % 4294967296
  if gid < 0 then none else some ⟨gid⟩

example : get_id_by_name "root".toList (some "root:x:0:0:root:/root:/bin/sh".toList) = 0 := by
  decide
example :
    getpwnam (some "root:x:0:0:root:/root:/bin/sh".toList) "nobody".toList =
      some ⟨4294967295⟩ := by decide

/-- A `"../"` chain of length `k`. -/
def dots : Nat → List Char
  | 0 => []
  | k + 1 => '.' :: '.' :: '/' :: dots k

/-- The `mknod` calls recorded in a trace, in order. -/
def mknods : List Act → List (Str × Nat × Nat)
  | [] => []
  | Act.mknod p m d :: tr => (p, m, d) :: mknods tr
  | _ :: tr => mknods tr

/-- The condition under which `make_node` takes its preserve branch. -/
def preservable (fs : FS) (file : Str) (major minor : Nat) : Prop :=
  ∃ st, fsGet fs.entries file = some st ∧
    (st.ifmt = S_IFBLK ∨ st.ifmt = S_IFCHR) ∧ st.rdev = makedev major minor

/-- Lines of an optional db file (empty when `file_map` failed). -/
def dbLines : Option Str → List Str
  | none => []
  | some content => splitOnChar '\n' content

theorem fsGet_fsStore_self (l : List (Str × FSEntry)) (p : Str) (e : FSEntry)
    (h : fsGet l p = some e) : fsStore l p e = l := by
  induction l with
  | nil => simp [fsGet] at h
  | cons hd tl ih =>
    obtain ⟨q, e'⟩ := hd
    by_cases hq : q = p
    · subst hq
      simp [fsGet] at h
      simp [fsStore, h]
    · simp [fsGet, hq] at h
      simp [fsStore, hq, ih h]

theorem fsGet_fsStore_eq (l : List (Str × FSEntry)) (p : Str) (e : FSEntry) :
    fsGet (fsStore l p e) p = some e := by
  induction l with
  | nil => simp [fsGet, fsStore]
  | cons hd tl ih =>
    obtain ⟨q, e'⟩ := hd
    by_cases hq : q = p
    · simp [fsStore, fsGet, hq]
    · simp [fsStore, fsGet, hq, ih]

theorem fsGet_fsStore_ne (l : List (Str × FSEntry)) (p q : Str) (e : FSEntry)
    (h : q ≠ p) : fsGet (fsStore l q e) p = fsGet l p := by
  induction l with
  | nil => simp [fsGet, fsStore, h]
  | cons hd tl ih =>
    obtain ⟨q', e'⟩ := hd
    by_cases hq : q' = q
    · subst hq
      simp [fsStore, fsGet, h]
    · simp [fsStore, fsGet, hq, ih]

theorem fsStore_fsStore (l : List (Str × FSEntry)) (p : Str) (a b : FSEntry) :
    fsStore (fsStore l p a) p b = fsStore l p b := by
  induction l with
  | nil => simp [fsStore]
  | cons hd tl ih =>
    obtain ⟨q, e⟩ := hd
    by_cases hq : q = p
    · simp [fsStore, hq]
    · simp [fsStore, hq, ih]

theorem makeNodePerms_ret (fs : FS) (env : Syscalls) (file : Str) (mode : Nat)
    (uid gid : Nat) (retval : Int) (tr : List Act) :
    (makeNodePerms fs env file mode uid gid retval tr).ret = retval := by
  unfold makeNodePerms
  split_ifs <;> rfl

/-- Full behavior of the `perms:` section when chmod and chown succeed and
the file is present. -/
theorem makeNodePerms_allOK (fs : FS) (file : Str) (mode : Nat)
    (uid gid : Nat) (retval : Int) (tr : List Act) (e : FSEntry)
    (h : fsGet fs.entries file = some e) :
    makeNodePerms fs allOK file mode uid gid retval tr =
      ⟨retval,
       ⟨fsStore fs.entries file
          { e with perm := mode % 4096,
                   uid := if uid ≠ 0 ∨ gid ≠ 0 then uid else e.uid,
                   gid := if uid ≠ 0 ∨ gid ≠ 0 then gid else e.gid },
        fs.nextIno⟩,
       tr ++ [Act.chmod file mode] ++
         (if uid ≠ 0 ∨ gid ≠ 0 then [Act.chown file uid gid] else [])⟩ := by
  unfold makeNodePerms chmodFS chownFS
  by_cases hc : uid ≠ 0 ∨ gid ≠ 0
  · simp [allOK, h, hc, fsGet_fsStore_eq, fsStore_fsStore]
  · simp [allOK, h, hc]

/-- Full behavior of the `create:` section under the all-success oracle. -/
theorem makeNodeCreate_allOK (fs : FS) (file : Str) (major minor : Nat)
    (mode : Nat) (uid gid : Nat) (tr : List Act) :
    makeNodeCreate fs allOK file major minor mode uid gid tr =
      ⟨0,
       ⟨fsStore fs.entries file
          ⟨mode &&& S_IFMT, makedev major minor, mode % 4096,
           (if uid ≠ 0 ∨ gid ≠ 0 then uid else 0),
           (if uid ≠ 0 ∨ gid ≠ 0 then gid else 0), fs.nextIno, []⟩,
        fs.nextIno + 1⟩,
       tr ++ [Act.setfscreatecon file mode, Act.mknod file mode (makedev major minor),
              Act.chmod file mode] ++
         (if uid ≠ 0 ∨ gid ≠ 0 then [Act.chown file uid gid] else [])⟩ := by
  unfold makeNodeCreate
  rw [show allOK.mknodOK = true from rfl, if_pos rfl]
  rw [makeNodePerms_allOK _ _ _ _ _ _ _
    ⟨mode &&& S_IFMT, makedev major minor, mode % 4096, 0, 0, fs.nextIno, []⟩
    (by simp [fsGet_fsStore_eq])]
  simp [fsStore_fsStore]

/-- `make_node` on an absent path, all calls succeeding. -/
theorem make_node_create_allOK (fs : FS) (file : Str) (major minor : Nat)
    (mode : Nat) (uid gid : Nat) (h : fsGet fs.entries file = none) :
    make_node fs allOK file major minor mode uid gid =
      ⟨0,
       ⟨fsStore fs.entries file
          ⟨mode &&& S_IFMT, makedev major minor, mode % 4096,
           (if uid ≠ 0 ∨ gid ≠ 0 then uid else 0),
           (if uid ≠ 0 ∨ gid ≠ 0 then gid else 0), fs.nextIno, []⟩,
        fs.nextIno + 1⟩,
       [Act.setfscreatecon file mode, Act.mknod file mode (makedev major minor),
        Act.chmod file mode] ++
         (if uid ≠ 0 ∨ gid ≠ 0 then [Act.chown file uid gid] else [])⟩ := by
  unfold make_node
  rw [h]
  rw [makeNodeCreate_allOK]
  simp

/-- `make_node` on a preservable existing node, all calls succeeding:
no unlink, no mknod, same inode. -/
theorem make_node_preserve_allOK (fs : FS) (file : Str) (major minor : Nat)
    (mode : Nat) (uid gid : Nat) (e : FSEntry)
    (h : fsGet fs.entries file = some e)
    (hc : (e.ifmt = S_IFBLK ∨ e.ifmt = S_IFCHR) ∧ e.rdev = makedev major minor) :
    make_node fs allOK file major minor mode uid gid =
      ⟨0,
       ⟨fsStore fs.entries file
          { e with perm := mode % 4096,
                   uid := if uid ≠ 0 ∨ gid ≠ 0 then uid else e.uid,
                   gid := if uid ≠ 0 ∨ gid ≠ 0 then gid else e.gid },
        fs.nextIno⟩,
       [Act.setfilecon file (e.ifmt + e.perm), Act.chmod file mode] ++
         (if uid ≠ 0 ∨ gid ≠ 0 then [Act.chown file uid gid] else [])⟩ := by
  unfold make_node
  simp only [h]
  rw [if_pos hc, makeNodePerms_allOK _ _ _ _ _ _ _ e h]
  simp

/-- After a successful `make_node` with block/char type bits, the target
path holds a preservable entry with the requested permission/ownership. -/
theorem make_node_allOK_entry (fs : FS) (file : Str) (major minor mode uid gid : Nat)
    (hm : mode &&& S_IFMT = S_IFBLK ∨ mode &&& S_IFMT = S_IFCHR) :
    ∃ e, fsGet (make_node fs allOK file major minor mode uid gid).fs.entries file = some e ∧
      (e.ifmt = S_IFBLK ∨ e.ifmt = S_IFCHR) ∧ e.rdev = makedev major minor ∧
      e.perm = mode % 4096 ∧
      (uid ≠ 0 ∨ gid ≠ 0 → e.uid = uid ∧ e.gid = gid) := by
  rcases hg : fsGet fs.entries file with _ | st
  · rw [make_node_create_allOK fs file major minor mode uid gid hg]
    refine ⟨_, fsGet_fsStore_eq _ _ _, ?_, rfl, rfl, ?_⟩
    · exact hm
    · intro hc
      simp [hc]
  · by_cases hp : (st.ifmt = S_IFBLK ∨ st.ifmt = S_IFCHR) ∧ st.rdev = makedev major minor
    · rw [make_node_preserve_allOK fs file major minor mode uid gid st hg hp]
      refine ⟨_, fsGet_fsStore_eq _ _ _, ?_, ?_, rfl, ?_⟩
      · exact hp.1
      · exact hp.2
      · intro hc
        simp [hc]
    · rw [show make_node fs allOK file major minor mode uid gid =
            makeNodeCreate ⟨fsErase fs.entries file, fs.nextIno⟩ allOK file major minor mode
              uid gid [Act.unlink file] by
          unfold make_node; simp only [hg]; rw [if_neg hp]]
      rw [makeNodeCreate_allOK]
      refine ⟨_, fsGet_fsStore_eq _ _ _, ?_, rfl, rfl, ?_⟩
      · exact hm
      · intro hc
        simp [hc]

/-- A `make_node` call whose target already carries exactly the requested
device number, permissions and ownership is a complete no-op on the
filesystem: preserve branch, chmod/chown re-apply identical values. -/
theorem make_node_second_preserves (fs : FS) (file : Str) (major minor mode uid gid : Nat)
    (e : FSEntry) (h : fsGet fs.entries file = some e)
    (h1 : e.ifmt = S_IFBLK ∨ e.ifmt = S_IFCHR) (h2 : e.rdev = makedev major minor)
    (h3 : e.perm = mode % 4096) (h4 : uid ≠ 0 ∨ gid ≠ 0 → e.uid = uid ∧ e.gid = gid) :
    make_node fs allOK file major minor mode uid gid =
      ⟨0, fs, [Act.setfilecon file (e.ifmt + e.perm), Act.chmod file mode] ++
          (if uid ≠ 0 ∨ gid ≠ 0 then [Act.chown file uid gid] else [])⟩ := by
  rw [make_node_preserve_allOK fs file major minor mode uid gid e h ⟨h1, h2⟩]
  have he : { e with perm := mode % 4096,
                     uid := if uid ≠ 0 ∨ gid ≠ 0 then uid else e.uid,
                     gid := if uid ≠ 0 ∨ gid ≠ 0 then gid else e.gid } = e := by
    by_cases hc : uid ≠ 0 ∨ gid ≠ 0
    · obtain ⟨hu, hg⟩ := h4 hc
      cases e
      simp_all
    · cases e
      simp_all
  rw [he, fsGet_fsStore_self _ _ _ h]

/-- C6: for every valid (major, minor) pair, calling `make_node` twice in a
row with identical path, type bits (block or char), mode, owner and group
leaves the filesystem in the same state as one call; the second call takes
the preserve branch — no unlink, no mknod — and the inode of the first
call's node is preserved. -/
theorem make_node_twice_same_as_once (fs : FS) (file : Str)
    (major minor mode uid gid : Nat)
    (hm : mode &&& S_IFMT = S_IFBLK ∨ mode &&& S_IFMT = S_IFCHR) :
    (make_node (make_node fs allOK file major minor mode uid gid).fs
        allOK file major minor mode uid gid).fs =
      (make_node fs allOK file major minor mode uid gid).fs ∧
    (make_node (make_node fs allOK file major minor mode uid gid).fs
        allOK file major minor mode uid gid).ret = 0 ∧
    (∀ a ∈ (make_node (make_node fs allOK file major minor mode uid gid).fs
        allOK file major minor mode uid gid).trace,
      (∀ p, a ≠ Act.unlink p) ∧ (∀ p m d, a ≠ Act.mknod p m d)) ∧
    (fsGet (make_node (make_node fs allOK file major minor mode uid gid).fs
        allOK file major minor mode uid gid).fs.entries file).map FSEntry.ino =
      (fsGet (make_node fs allOK file major minor mode uid gid).fs.entries file).map
        FSEntry.ino := by
  obtain ⟨e, he, h1, h2, h3, h4⟩ :=
    make_node_allOK_entry fs file major minor mode uid gid hm
  rw [make_node_second_preserves _ file major minor mode uid gid e he h1 h2 h3 h4]
  refine ⟨rfl, rfl, ?_, rfl⟩
  intro a ha
  by_cases hc : uid ≠ 0 ∨ gid ≠ 0
  · simp only [hc, if_true] at ha
    simp only [List.mem_append, List.mem_singleton, List.mem_cons,
      List.not_mem_nil, or_false] at ha
    rcases ha with (rfl | rfl) | rfl <;> simp
  · simp only [hc, if_false] at ha
    simp only [List.mem_append, List.mem_singleton, List.mem_cons,
      List.not_mem_nil, or_false] at ha
    rcases ha with rfl | rfl <;> simp

/-- Witness for the C6 theorem at a concrete block device. -/
theorem make_node_twice_same_as_once_witness :
    (make_node (make_node ⟨[], 0⟩ allOK ['a'] 8 1 25008 5 6).fs
        allOK ['a'] 8 1 25008 5 6).fs =
      (make_node ⟨[], 0⟩ allOK ['a'] 8 1 25008 5 6).fs ∧
    (make_node (make_node ⟨[], 0⟩ allOK ['a'] 8 1 25008 5 6).fs
        allOK ['a'] 8 1 25008 5 6).ret = 0 ∧
    (∀ a ∈ (make_node (make_node ⟨[], 0⟩ allOK ['a'] 8 1 25008 5 6).fs
        allOK ['a'] 8 1 25008 5 6).trace,
      (∀ p, a ≠ Act.unlink p) ∧ (∀ p m d, a ≠ Act.mknod p m d)) ∧
    (fsGet (make_node (make_node ⟨[], 0⟩ allOK ['a'] 8 1 25008 5 6).fs
        allOK ['a'] 8 1 25008 5 6).fs.entries ['a']).map FSEntry.ino =
      (fsGet (make_node ⟨[], 0⟩ allOK ['a'] 8 1 25008 5 6).fs.entries ['a']).map
        FSEntry.ino :=
  make_node_twice_same_as_once ⟨[], 0⟩ ['a'] 8 1 25008 5 6 (Or.inl (by decide))

theorem makeNodeCreate_ret (fs : FS) (env : Syscalls) (file : Str)
    (major minor mode uid gid : Nat) (tr : List Act) :
    (makeNodeCreate fs env file major minor mode uid gid tr).ret =
      if env.mknodOK then 0 else -1 := by
  unfold makeNodeCreate
  by_cases h : env.mknodOK <;> simp [h, makeNodePerms_ret]

theorem make_node_chmodFail_no_chown (fs : FS) (env : Syscalls) (file : Str)
    (major minor mode uid gid : Nat) (h : env.chmodOK = false) :
    ∀ p u g, Act.chown p u g ∉ (make_node fs env file major minor mode uid gid).trace := by
  intro p u g
  unfold make_node makeNodeCreate makeNodePerms
  rcases hg : fsGet fs.entries file with _ | st
  · by_cases hm : env.mknodOK <;> simp [h, hm]
  · by_cases hp : (st.ifmt = S_IFBLK ∨ st.ifmt = S_IFCHR) ∧ st.rdev = makedev major minor
    · simp [hp, h]
    · by_cases hm : env.mknodOK <;> simp [hp, h, hm]

/-- C2 (amended): in `make_node` only the `mknod` step determines the
return value — the call returns non-zero exactly when the preserve branch
is not taken and `mknod` fails; a `chmod` failure aborts the remaining
steps (in particular no `chown` is attempted) but is not surfaced: the
return value stays at the `mknod` outcome, 0 in the preserve branch and
after a successful creation. -/
theorem make_node_only_mknod_failure_surfaced (fs : FS) (env : Syscalls) (file : Str)
    (major minor mode uid gid : Nat) :
    ((make_node fs env file major minor mode uid gid).ret ≠ 0 ↔
      env.mknodOK = false ∧ ¬ preservable fs file major minor) ∧
    (env.chmodOK = false →
      ∀ p u g, Act.chown p u g ∉ (make_node fs env file major minor mode uid gid).trace) := by
  refine ⟨?_, fun h => make_node_chmodFail_no_chown fs env file major minor mode uid gid h⟩
  rcases hg : fsGet fs.entries file with _ | st
  · have hpres : ¬ preservable fs file major minor := by
      rintro ⟨st, hst, -⟩
      rw [hg] at hst
      exact Option.noConfusion hst
    unfold make_node
    simp only [hg]
    rw [makeNodeCreate_ret]
    by_cases hm : env.mknodOK <;> simp [hm, hpres]
  · by_cases hp : (st.ifmt = S_IFBLK ∨ st.ifmt = S_IFCHR) ∧ st.rdev = makedev major minor
    · have hpres : preservable fs file major minor := ⟨st, hg, hp⟩
      unfold make_node
      simp only [hg]
      rw [if_pos hp, makeNodePerms_ret]
      simp [hpres]
    · have hpres : ¬ preservable fs file major minor := by
        rintro ⟨st', hst', hcond⟩
        rw [hg] at hst'
        injection hst' with hst'
        subst hst'
        exact hp hcond
      unfold make_node
      simp only [hg]
      rw [if_neg hp, makeNodeCreate_ret]
      by_cases hm : env.mknodOK <;> simp [hm, hpres]

/-- Witness for the C2 amended theorem at a concrete input. -/
theorem make_node_only_mknod_failure_surfaced_witness :
    ((make_node ⟨[], 0⟩ { allOK with mknodOK := false } ['a'] 8 1 25008 0 0).ret ≠ 0 ↔
      ({ allOK with mknodOK := false } : Syscalls).mknodOK = false ∧
        ¬ preservable ⟨[], 0⟩ ['a'] 8 1) ∧
    (({ allOK with mknodOK := false } : Syscalls).chmodOK = false →
      ∀ p u g, Act.chown p u g ∉
        (make_node ⟨[], 0⟩ { allOK with mknodOK := false } ['a'] 8 1 25008 0 0).trace) :=
  make_node_only_mknod_failure_surfaced ⟨[], 0⟩ { allOK with mknodOK := false } ['a'] 8 1 25008 0 0

/-- C2 counterexample: a chmod failure is a real failure of one of the
three steps (the chmod action is attempted, its oracle says it failed),
yet `make_node` returns 0 — refuting the claim that each of the three
steps independently produces a non-zero result.  The preserve branch of
the claim is exercised: the node already exists with the right device
number. -/
theorem make_node_chmod_failure_returns_zero :
    (make_node ⟨[(['a'], ⟨S_IFBLK, makedev 8 1, 432, 0, 0, 7, []⟩)], 8⟩
        { allOK with chmodOK := false } ['a'] 8 1 25008 0 0).ret = 0 ∧
    Act.chmod ['a'] 25008 ∈
      (make_node ⟨[(['a'], ⟨S_IFBLK, makedev 8 1, 432, 0, 0, 7, []⟩)], 8⟩
        { allOK with chmodOK := false } ['a'] 8 1 25008 0 0).trace ∧
    ({ allOK with chmodOK := false } : Syscalls).chmodOK = false := by
  refine ⟨by decide, by decide, by decide⟩

theorem get_major_minor_shape (attrDev : Option Str) (u : UDevice) :
    ∃ ma mi, (get_major_minor attrDev u).2 = { u with major := ma, minor := mi } := by
  cases attrDev with
  | none => exact ⟨u.major, u.minor, rfl⟩
  | some v =>
    simp only [get_major_minor]
    split_ifs <;> exact ⟨_, _, rfl⟩

/-- C9: for a block/char descriptor whose major/minor resolution fails,
`udev_add_device` returns success (0) and performs nothing further: no
naming call, no filesystem action at all, and `devname`/`name` untouched. -/
theorem udev_add_resolution_miss_noop (root : Str) (fs : FS) (env : Syscalls)
    (pw gr : Str → Option Nat) (attrDev : Option Str) (nres : Option NamingResult)
    (u : UDevice) (hty : u.dtype = 'b' ∨ u.dtype = 'c')
    (hf : (get_major_minor attrDev u).1 ≠ 0) :
    (udev_add_device root fs env pw gr attrDev nres u).ret = 0 ∧
    (udev_add_device root fs env pw gr attrDev nres u).fs = fs ∧
    (udev_add_device root fs env pw gr attrDev nres u).trace = [] ∧
    (udev_add_device root fs env pw gr attrDev nres u).udev.devname = u.devname ∧
    (udev_add_device root fs env pw gr attrDev nres u).udev.name = u.name := by
  obtain ⟨ma, mi, hsh⟩ := get_major_minor_shape attrDev u
  simp only [udev_add_device]
  rw [if_pos hty, if_pos hf, hsh]
  exact ⟨rfl, rfl, rfl, rfl, rfl⟩

/-- Witness for the C9 theorem: a block descriptor with a missing `dev`
attribute. -/
theorem udev_add_resolution_miss_noop_witness :
    (udev_add_device ['r'] ⟨[], 0⟩ allOK (fun _ => none) (fun _ => none) none none
      ⟨"sda".toList, [], "/block/sda".toList, [], 'b', 0, 0, 432, [], [], [], 0, false⟩).ret
        = 0 ∧
    (udev_add_device ['r'] ⟨[], 0⟩ allOK (fun _ => none) (fun _ => none) none none
      ⟨"sda".toList, [], "/block/sda".toList, [], 'b', 0, 0, 432, [], [], [], 0, false⟩).fs
        = ⟨[], 0⟩ ∧
    (udev_add_device ['r'] ⟨[], 0⟩ allOK (fun _ => none) (fun _ => none) none none
      ⟨"sda".toList, [], "/block/sda".toList, [], 'b', 0, 0, 432, [], [], [], 0, false⟩).trace
        = [] ∧
    (udev_add_device ['r'] ⟨[], 0⟩ allOK (fun _ => none) (fun _ => none) none none
      ⟨"sda".toList, [], "/block/sda".toList, [], 'b', 0, 0, 432, [], [], [], 0,
        false⟩).udev.devname =
      (⟨"sda".toList, [], "/block/sda".toList, [], 'b', 0, 0, 432, [], [], [], 0,
        false⟩ : UDevice).devname ∧
    (udev_add_device ['r'] ⟨[], 0⟩ allOK (fun _ => none) (fun _ => none) none none
      ⟨"sda".toList, [], "/block/sda".toList, [], 'b', 0, 0, 432, [], [], [], 0,
        false⟩).udev.name =
      (⟨"sda".toList, [], "/block/sda".toList, [], 'b', 0, 0, 432, [], [], [], 0,
        false⟩ : UDevice).name :=
  udev_add_resolution_miss_noop ['r'] ⟨[], 0⟩ allOK (fun _ => none) (fun _ => none) none none
    _ (Or.inl rfl) (by decide)

/-- The trivial name-lookup oracle (no passwd/group database available). -/
def noLookup : Str → Option Nat := fun _ => none

/-- C1 (amended): for a descriptor whose type is none of 'b', 'c', 'n',
`udev_add_device` returns success (0), leaves the filesystem untouched and
performs no filesystem, ioctl or environment action — its trace is only
the naming-collaborator call and the labeling bookkeeping — and the
descriptor is mutated only by the naming collaborator's field fill
(`devname` in particular is unchanged).  The immediate `-EINVAL` failure
on an unrecognized node type lives in `create_node`, which is unreachable
for such descriptors. -/
theorem udev_add_unhandled_type_succeeds (root : Str) (fs : FS) (env : Syscalls)
    (pw gr : Str → Option Nat) (attrDev : Option Str) (nres : Option NamingResult)
    (u : UDevice) (hb : u.dtype ≠ 'b') (hc : u.dtype ≠ 'c') (hn : u.dtype ≠ 'n') :
    (udev_add_device root fs env pw gr attrDev nres u).ret = 0 ∧
    (udev_add_device root fs env pw gr attrDev nres u).fs = fs ∧
    (udev_add_device root fs env pw gr attrDev nres u).udev =
      (match nres with | none => u | some nr => applyNaming u nr) ∧
    (udev_add_device root fs env pw gr attrDev nres u).udev.devname = u.devname ∧
    (udev_add_device root fs env pw gr attrDev nres u).trace =
      (match nres with
       | none => [Act.naming, Act.selinuxRestore]
       | some _ => [Act.naming, Act.selinuxInit, Act.selinuxRestore]) := by
  have hbc : ¬(u.dtype = 'b' ∨ u.dtype = 'c') := by
    rintro (h | h) <;> [exact hb h; exact hc h]
  simp only [udev_add_device]
  rw [if_neg hbc]
  cases nres with
  | none => exact ⟨rfl, rfl, rfl, rfl, rfl⟩
  | some nr =>
    have hbc2 : ¬((applyNaming u nr).dtype = 'b' ∨ (applyNaming u nr).dtype = 'c') := hbc
    have hn2 : ¬((applyNaming u nr).dtype = 'n') := hn
    simp only [addAfterMM]
    rw [if_neg hbc2, if_neg hn2]
    exact ⟨rfl, rfl, rfl, rfl, rfl⟩

/-- Witness for the C1 amended theorem: a FIFO-type descriptor. -/
theorem udev_add_unhandled_type_succeeds_witness :
    (udev_add_device ['r'] ⟨[], 0⟩ allOK noLookup noLookup none
      (some ⟨"sda".toList, [], [], 432, [], 0⟩)
      ⟨"sda".toList, [], "/block/sda".toList, [], 'p', 0, 0, 432, [], [], [], 0, false⟩).ret
        = 0 ∧
    (udev_add_device ['r'] ⟨[], 0⟩ allOK noLookup noLookup none
      (some ⟨"sda".toList, [], [], 432, [], 0⟩)
      ⟨"sda".toList, [], "/block/sda".toList, [], 'p', 0, 0, 432, [], [], [], 0, false⟩).fs
        = ⟨[], 0⟩ ∧
    (udev_add_device ['r'] ⟨[], 0⟩ allOK noLookup noLookup none
      (some ⟨"sda".toList, [], [], 432, [], 0⟩)
      ⟨"sda".toList, [], "/block/sda".toList, [], 'p', 0, 0, 432, [], [], [], 0, false⟩).udev
        = (match (some ⟨"sda".toList, [], [], 432, [], 0⟩ : Option NamingResult) with
           | none => ⟨"sda".toList, [], "/block/sda".toList, [], 'p', 0, 0, 432, [], [], [],
               0, false⟩
           | some nr => applyNaming
               ⟨"sda".toList, [], "/block/sda".toList, [], 'p', 0, 0, 432, [], [], [],
                 0, false⟩ nr) ∧
    (udev_add_device ['r'] ⟨[], 0⟩ allOK noLookup noLookup none
      (some ⟨"sda".toList, [], [], 432, [], 0⟩)
      ⟨"sda".toList, [], "/block/sda".toList, [], 'p', 0, 0, 432, [], [], [],
        0, false⟩).udev.devname =
      (⟨"sda".toList, [], "/block/sda".toList, [], 'p', 0, 0, 432, [], [], [],
        0, false⟩ : UDevice).devname ∧
    (udev_add_device ['r'] ⟨[], 0⟩ allOK noLookup noLookup none
      (some ⟨"sda".toList, [], [], 432, [], 0⟩)
      ⟨"sda".toList, [], "/block/sda".toList, [], 'p', 0, 0, 432, [], [], [],
        0, false⟩).trace =
      (match (some ⟨"sda".toList, [], [], 432, [], 0⟩ : Option NamingResult) with
       | none => [Act.naming, Act.selinuxRestore]
       | some _ => [Act.naming, Act.selinuxInit, Act.selinuxRestore]) :=
  udev_add_unhandled_type_succeeds ['r'] ⟨[], 0⟩ allOK noLookup noLookup none
    (some ⟨"sda".toList, [], [], 432, [], 0⟩)
    ⟨"sda".toList, [], "/block/sda".toList, [], 'p', 0, 0, 432, [], [], [], 0, false⟩
    (by decide) (by decide) (by decide)

/-- C1 counterexample: for a FIFO-type descriptor ('p', which is none of
'b', 'c', 'n'), `udev_add_device` returns 0 — success — refuting the
claimed immediate (non-success) failure. -/
theorem udev_add_unhandled_type_not_failure :
    (⟨"sda".toList, [], "/block/sda".toList, [], 'p', 0, 0, 432, [], [], [], 0,
      false⟩ : UDevice).dtype ≠ 'b' ∧
    (⟨"sda".toList, [], "/block/sda".toList, [], 'p', 0, 0, 432, [], [], [], 0,
      false⟩ : UDevice).dtype ≠ 'c' ∧
    (⟨"sda".toList, [], "/block/sda".toList, [], 'p', 0, 0, 432, [], [], [], 0,
      false⟩ : UDevice).dtype ≠ 'n' ∧
    (udev_add_device ['r'] ⟨[], 0⟩ allOK noLookup noLookup none
      (some ⟨"sda".toList, [], [], 432, [], 0⟩)
      ⟨"sda".toList, [], "/block/sda".toList, [], 'p', 0, 0, 432, [], [], [],
        0, false⟩).ret = 0 := by
  refine ⟨by decide, by decide, by decide, by decide⟩

/-- C4 (amended): for a network descriptor whose resolved name equals the
kernel name, `udev_add_device` invokes no interface rename (no control
socket, no ioctl) and leaves the descriptor's `devname` — and `devpath` —
unmodified; the branch writing `devname` runs only when a rename happens. -/
theorem udev_add_net_same_name_no_rename (root : Str) (fs : FS) (env : Syscalls)
    (pw gr : Str → Option Nat) (attrDev : Option Str) (nr : NamingResult)
    (u : UDevice) (hty : u.dtype = 'n') (hnm : nr.name = u.kernel_name) :
    (udev_add_device root fs env pw gr attrDev (some nr) u).ret = 0 ∧
    (udev_add_device root fs env pw gr attrDev (some nr) u).udev.devname = u.devname ∧
    (udev_add_device root fs env pw gr attrDev (some nr) u).udev.devpath = u.devpath ∧
    (udev_add_device root fs env pw gr attrDev (some nr) u).trace =
      [Act.naming, Act.selinuxInit, Act.selinuxRestore] ∧
    (∀ a b, Act.renameIf a b ∉ (udev_add_device root fs env pw gr attrDev (some nr) u).trace) ∧
    Act.socketOpen ∉ (udev_add_device root fs env pw gr attrDev (some nr) u).trace := by
  have hbc : ¬(u.dtype = 'b' ∨ u.dtype = 'c') := by
    rw [hty]
    rintro (h | h) <;> exact absurd h (by decide)
  simp only [udev_add_device]
  rw [if_neg hbc]
  simp only [addAfterMM]
  have hbc2 : ¬((applyNaming u nr).dtype = 'b' ∨ (applyNaming u nr).dtype = 'c') := hbc
  have hn2 : (applyNaming u nr).dtype = 'n' := hty
  have heq : ¬((applyNaming u nr).name ≠ (applyNaming u nr).kernel_name) := by
    simp only [applyNaming]
    simp [hnm]
  rw [if_neg hbc2, if_pos hn2, if_neg heq]
  refine ⟨rfl, rfl, rfl, rfl, ?_, ?_⟩
  · intro a b hmem
    simp at hmem
  · intro hmem
    simp at hmem

/-- Witness for the C4 amended theorem: `eth0` resolving to `eth0`. -/
theorem udev_add_net_same_name_no_rename_witness :
    (udev_add_device ['r'] ⟨[], 0⟩ allOK noLookup noLookup none
      (some ⟨"eth0".toList, [], [], 0, [], 0⟩)
      ⟨"eth0".toList, [], "/class/net/eth0".toList, [], 'n', 0, 0, 0, [], [], [],
        0, false⟩).ret = 0 ∧
    (udev_add_device ['r'] ⟨[], 0⟩ allOK noLookup noLookup none
      (some ⟨"eth0".toList, [], [], 0, [], 0⟩)
      ⟨"eth0".toList, [], "/class/net/eth0".toList, [], 'n', 0, 0, 0, [], [], [],
        0, false⟩).udev.devname =
      (⟨"eth0".toList, [], "/class/net/eth0".toList, [], 'n', 0, 0, 0, [], [], [],
        0, false⟩ : UDevice).devname ∧
    (udev_add_device ['r'] ⟨[], 0⟩ allOK noLookup noLookup none
      (some ⟨"eth0".toList, [], [], 0, [], 0⟩)
      ⟨"eth0".toList, [], "/class/net/eth0".toList, [], 'n', 0, 0, 0, [], [], [],
        0, false⟩).udev.devpath =
      (⟨"eth0".toList, [], "/class/net/eth0".toList, [], 'n', 0, 0, 0, [], [], [],
        0, false⟩ : UDevice).devpath ∧
    (udev_add_device ['r'] ⟨[], 0⟩ allOK noLookup noLookup none
      (some ⟨"eth0".toList, [], [], 0, [], 0⟩)
      ⟨"eth0".toList, [], "/class/net/eth0".toList, [], 'n', 0, 0, 0, [], [], [],
        0, false⟩).trace = [Act.naming, Act.selinuxInit, Act.selinuxRestore] ∧
    (∀ a b, Act.renameIf a b ∉
      (udev_add_device ['r'] ⟨[], 0⟩ allOK noLookup noLookup none
        (some ⟨"eth0".toList, [], [], 0, [], 0⟩)
        ⟨"eth0".toList, [], "/class/net/eth0".toList, [], 'n', 0, 0, 0, [], [], [],
          0, false⟩).trace) ∧
    Act.socketOpen ∉
      (udev_add_device ['r'] ⟨[], 0⟩ allOK noLookup noLookup none
        (some ⟨"eth0".toList, [], [], 0, [], 0⟩)
        ⟨"eth0".toList, [], "/class/net/eth0".toList, [], 'n', 0, 0, 0, [], [], [],
          0, false⟩).trace :=
  udev_add_net_same_name_no_rename ['r'] ⟨[], 0⟩ allOK noLookup noLookup none
    ⟨"eth0".toList, [], [], 0, [], 0⟩
    ⟨"eth0".toList, [], "/class/net/eth0".toList, [], 'n', 0, 0, 0, [], [], [], 0, false⟩
    (by decide) (by decide)

/-- C4 counterexample: with `devname` initially empty (the descriptor's
`devname` is this stage's output, not an input), a network descriptor whose
resolved name equals the kernel name comes back with `devname` still empty,
not equal to `kernel_name` — the no-rename branch never writes `devname`. -/
theorem udev_add_net_same_name_devname_not_written :
    (udev_add_device ['r'] ⟨[], 0⟩ allOK noLookup noLookup none
      (some ⟨"eth0".toList, [], [], 0, [], 0⟩)
      ⟨"eth0".toList, [], "/class/net/eth0".toList, [], 'n', 0, 0, 0, [], [], [],
        0, false⟩).udev.devname ≠
    (⟨"eth0".toList, [], "/class/net/eth0".toList, [], 'n', 0, 0, 0, [], [], [],
      0, false⟩ : UDevice).kernel_name := by
  decide

/-- The three possible outcomes of the `"%u:%u"` scan: no conversion (all
inputs unchanged), one conversion (major overwritten, minor untouched), or
two conversions. -/
theorem scanMajorMinor_shape (s : Str) (major minor : Nat) :
    scanMajorMinor s major minor = (0, major, minor) ∨
    (∃ ma, scanMajorMinor s major minor = (1, ma, minor)) ∨
    (∃ ma mi, scanMajorMinor s major minor = (2, ma, mi)) := by
  unfold scanMajorMinor
  rcases h1 : strtoul10 s with _ | ⟨v1, r1⟩
  · left
    simp [h1]
  · simp only [h1]
    right
    split
    · rename_i r2
      rcases h2 : strtoul10 r2 with _ | ⟨v2, r3⟩ <;> simp only [h2]
      · left
        exact ⟨_, rfl⟩
      · right
        exact ⟨_, _, rfl⟩
    · left
      exact ⟨_, rfl⟩

/-- When the first `%u` conversion fails, the scan assigns nothing. -/
theorem scanMajorMinor_no_first_conv (s : Str) (major minor : Nat)
    (h : strtoul10 s = none) :
    scanMajorMinor s major minor = (0, major, minor) := by
  unfold scanMajorMinor
  simp only [h]

/-- C5 (amended): when `get_major_minor` fails, `minor` is always left
unmodified, and the descriptor is fully unmodified when the attribute is
missing or when the first `%u` conversion of its text fails (no digits
after the optional whitespace and sign); but when the text begins with a
convertible integer (e.g. `"7:x"`), `major` is already overwritten by the
partial `sscanf` conversion before the failure is reported. -/
theorem get_major_minor_failure_mutation (attrDev : Option Str) (u : UDevice)
    (h : (get_major_minor attrDev u).1 ≠ 0) :
    (get_major_minor attrDev u).2.minor = u.minor ∧
    (attrDev = none → (get_major_minor attrDev u).2 = u) ∧
    (∀ s, attrDev = some s → strtoul10 s = none →
      (get_major_minor attrDev u).2 = u) := by
  cases attrDev with
  | none => exact ⟨rfl, fun _ => rfl, fun s hs => Option.noConfusion hs⟩
  | some v =>
    rcases scanMajorMinor_shape v u.major u.minor with h0 | ⟨ma, h1⟩ | ⟨ma, mi, h2⟩
    · refine ⟨?_, fun hn => Option.noConfusion hn, ?_⟩
      · simp [get_major_minor, h0]
      · intro s hs hnone
        simp [get_major_minor, h0]
    · refine ⟨?_, fun hn => Option.noConfusion hn, ?_⟩
      · simp [get_major_minor, h1]
      · intro s hs hnone
        injection hs with hv
        subst hv
        rw [scanMajorMinor_no_first_conv v u.major u.minor hnone] at h1
        have h10 := congrArg Prod.fst h1
        simp at h10
    · exfalso
      apply h
      simp [get_major_minor, h2]

/-- Witness for the C5 amended theorem: a malformed attribute text on
which no conversion happens mutates nothing. -/
theorem get_major_minor_failure_mutation_witness :
    (get_major_minor (some "x:1".toList)
      ⟨"sda".toList, [], [], [], 'b', 5, 6, 432, [], [], [], 0, false⟩).2.minor =
      (⟨"sda".toList, [], [], [], 'b', 5, 6, 432, [], [], [], 0, false⟩ : UDevice).minor ∧
    ((some "x:1".toList : Option Str) = none →
      (get_major_minor (some "x:1".toList)
        ⟨"sda".toList, [], [], [], 'b', 5, 6, 432, [], [], [], 0, false⟩).2 =
        ⟨"sda".toList, [], [], [], 'b', 5, 6, 432, [], [], [], 0, false⟩) ∧
    (∀ s, (some "x:1".toList : Option Str) = some s → strtoul10 s = none →
      (get_major_minor (some "x:1".toList)
        ⟨"sda".toList, [], [], [], 'b', 5, 6, 432, [], [], [], 0, false⟩).2 =
        ⟨"sda".toList, [], [], [], 'b', 5, 6, 432, [], [], [], 0, false⟩) :=
  get_major_minor_failure_mutation (some "x:1".toList)
    ⟨"sda".toList, [], [], [], 'b', 5, 6, 432, [], [], [], 0, false⟩ (by decide)

/-- C5 counterexample: on the malformed attribute text `"7:x"`,
`get_major_minor` returns failure (-1) yet `major` has been overwritten
from 5 to 7 by the partial `sscanf` conversion — refuting the claim that
failure leaves major/minor exactly as they were. -/
theorem get_major_minor_failure_mutates_major :
    (get_major_minor (some "7:x".toList)
      ⟨"sda".toList, [], [], [], 'b', 5, 6, 432, [], [], [], 0, false⟩).1 = -1 ∧
    (get_major_minor (some "7:x".toList)
      ⟨"sda".toList, [], [], [], 'b', 5, 6, 432, [], [], [], 0, false⟩).2.major = 7 ∧
    (⟨"sda".toList, [], [], [], 'b', 5, 6, 432, [], [], [], 0,
      false⟩ : UDevice).major = 5 := by
  refine ⟨by decide, by decide, by decide⟩

/-- C8 (failing input): with `test_run` set and a resolved name containing
a `'/'`, the addition pipeline still performs a `create_path` (mkdir)
mutation — the parent-directory creation in `create_node` (udev_add.c:152-153)
is not guarded by the `test_run` flag, unlike every other mutation site.
The full test-mode trace at this input is exactly the naming call, the
labeling bookkeeping, the db record — and the mkdir. -/
theorem udev_add_test_run_still_mkdirs :
    (⟨"sda".toList, [], "/block/sda".toList, [], 'b', 0, 0, 432, [], [], [], 0,
      true⟩ : UDevice).test_run = true ∧
    Act.mkdirp "r/a/b".toList ∈
      (udev_add_device ['r'] ⟨[], 0⟩ allOK noLookup noLookup (some "8:0".toList)
        (some ⟨"a/b".toList, [], [], 432, [], 0⟩)
        ⟨"sda".toList, [], "/block/sda".toList, [], 'b', 0, 0, 432, [], [], [],
          0, true⟩).trace ∧
    (udev_add_device ['r'] ⟨[], 0⟩ allOK noLookup noLookup (some "8:0".toList)
      (some ⟨"a/b".toList, [], [], 432, [], 0⟩)
      ⟨"sda".toList, [], "/block/sda".toList, [], 'b', 0, 0, 432, [], [], [],
        0, true⟩).trace =
      [Act.naming, Act.selinuxInit, Act.mkdirp "r/a/b".toList, Act.dbAdd,
        Act.selinuxRestore] := by
  refine ⟨by decide, by decide, by decide⟩

theorem ginLoop_absent (uname : Str) (L : List Str)
    (h : ∀ line ∈ L, lineId uname line = none) :
    ginLoop uname L = ULONG_MAX := by
  induction L with
  | nil => rfl
  | cons line rest ih =>
    have hline := h line (List.mem_cons_self line rest)
    simp only [ginLoop, hline]
    exact ih (fun l hl => h l (List.mem_cons_of_mem line hl))

theorem get_id_by_name_absent (uname : Str) (dbfile : Option Str)
    (h : ∀ line ∈ dbLines dbfile, lineId uname line = none) :
    get_id_by_name uname dbfile = ULONG_MAX := by
  cases dbfile with
  | none => rfl
  | some content => exact ginLoop_absent uname _ h

/-- C10: because `pw_uid`/`gr_gid` are unsigned, the `< 0` checks in the
klibc `getpwnam`/`getgrnam` shims can never fire; for any name absent from
the database file (including a failed `file_map`, where `get_id_by_name`
yields the `(unsigned long)-1` sentinel), both shims return a non-NULL
record whose id is the unsigned wrap of -1, i.e. 2^32 - 1 in the 32-bit id
type, instead of the NULL that would signal "unknown". -/
theorem klibc_unknown_name_wraps (pwFile grFile : Option Str) (uname : Str)
    (hpw : ∀ line ∈ dbLines pwFile, lineId uname line = none)
    (hgr : ∀ line ∈ dbLines grFile, lineId uname line = none) :
    getpwnam pwFile uname = some ⟨4294967295⟩ ∧
    getpwnam pwFile uname ≠ none ∧
    getgrnam grFile uname = some ⟨4294967295⟩ ∧
    getgrnam grFile uname ≠ none := by
  have hp := get_id_by_name_absent uname pwFile hpw
  have hg := get_id_by_name_absent uname grFile hgr
  have hmod : ULONG_MAX % 4294967296 = 4294967295 := by decide
  refine ⟨?_, ?_, ?_, ?_⟩
  · simp [getpwnam, hp, hmod]
  · simp [getpwnam, hp, hmod]
  · simp [getgrnam, hg, hmod]
  · simp [getgrnam, hg, hmod]

/-- Witness for the C10 theorem: `"nobody"` absent from a one-line passwd
file, group db unmapped. -/
theorem klibc_unknown_name_wraps_witness :
    getpwnam (some "root:x:0:0:root:/root:/bin/sh".toList) "nobody".toList =
      some ⟨4294967295⟩ ∧
    getpwnam (some "root:x:0:0:root:/root:/bin/sh".toList) "nobody".toList ≠ none ∧
    getgrnam none "nobody".toList = some ⟨4294967295⟩ ∧
    getgrnam none "nobody".toList ≠ none :=
  klibc_unknown_name_wraps (some "root:x:0:0:root:/root:/bin/sh".toList) none
    "nobody".toList (by decide) (by decide)

theorem digitChar_val (m : Nat) (h : m < 10) : (digitChar m).toNat - 48 = m := by
  interval_cases m <;> decide

theorem digitsVal_append_digit (a : List Char) (c : Char) :
    digitsVal (a ++ [c]) = digitsVal a * 10 + (c.toNat - 48) := by
  simp [digitsVal, List.foldl_append]

theorem decCharsAux_val : ∀ (fuel n : Nat), n < fuel → digitsVal (decCharsAux fuel n) = n := by
  intro fuel
  induction fuel with
  | zero => intro n h; omega
  | succ fuel ih =>
    intro n h
    by_cases h10 : n < 10
    · have hd := digitChar_val n h10
      simp only [decCharsAux, h10, if_true]
      simp [digitsVal, hd]
    · simp only [decCharsAux, h10, if_false]
      rw [digitsVal_append_digit]
      rw [ih (n / 10) (by omega)]
      rw [digitChar_val (n % 10) (by omega)]
      omega

theorem decChars_val (n : Nat) : digitsVal (decChars n) = n :=
  decCharsAux_val (n + 1) n (Nat.lt_succ_self n)

theorem decChars_injective {a b : Nat} (h : decChars a = decChars b) : a = b := by
  have hv := congrArg digitsVal h
  rwa [decChars_val, decChars_val] at hv

theorem decChars_ne_nil (n : Nat) : decChars n ≠ [] := by
  unfold decChars decCharsAux
  by_cases h : n < 10 <;> simp [h]

theorem append_decChars_ne (filename : Str) (i : Nat) :
    filename ++ decChars i ≠ filename := by
  intro h
  have hl := congrArg List.length h
  simp only [List.length_append] at hl
  exact decChars_ne_nil i (List.eq_nil_of_length_eq_zero (by omega))

theorem mknods_append (a b : List Act) : mknods (a ++ b) = mknods a ++ mknods b := by
  induction a with
  | nil => rfl
  | cons x tr ih => cases x <;> simp [mknods, ih]

theorem mknods_make_node_create (fs : FS) (file : Str) (major minor mode uid gid : Nat)
    (h : fsGet fs.entries file = none) :
    mknods (make_node fs allOK file major minor mode uid gid).trace =
      [(file, mode, makedev major minor)] := by
  rw [make_node_create_allOK fs file major minor mode uid gid h]
  by_cases hc : uid ≠ 0 ∨ gid ≠ 0 <;> simp [hc, mknods, mknods_append]

theorem partLoop_mknods (filename : Str) (major minor mode uid gid : Nat) :
    ∀ (k i : Nat) (fs : FS) (tr : List Act),
      (∀ j, i ≤ j → fsGet fs.entries (filename ++ decChars j) = none) →
      mknods (partLoop allOK filename major minor mode uid gid k i fs tr).2 =
        mknods tr ++ (List.range' i k).map
          (fun j => (filename ++ decChars j, mode, makedev major (minor + j))) := by
  intro k
  induction k with
  | zero =>
    intro i fs tr H
    simp [partLoop]
  | succ k ih =>
    intro i fs tr H
    have Hnew : ∀ (e : FSEntry) (j : Nat), i + 1 ≤ j →
        fsGet (fsStore fs.entries (filename ++ decChars i) e)
          (filename ++ decChars j) = none := by
      intro e j hj
      rw [fsGet_fsStore_ne]
      · exact H j (by omega)
      · intro hpp
        have hij : i = j := decChars_injective (List.append_cancel_left hpp)
        omega
    simp only [partLoop]
    rw [make_node_create_allOK _ _ _ _ _ _ _ (H i (Nat.le_refl i))]
    dsimp only
    rw [ih (i + 1) _ _ (Hnew _)]
    rw [List.range'_succ]
    by_cases hc : uid ≠ 0 ∨ gid ≠ 0 <;>
      simp [hc, mknods, mknods_append, List.map_cons, List.append_assoc]

theorem symLoop_mknods (root : Str) (env : Syscalls) (name : Str) (testRun : Bool) :
    ∀ (toks : List Str) (fs : FS) (tr : List Act),
      mknods (symLoop root env name testRun toks fs tr).2 = mknods tr := by
  intro toks
  induction toks with
  | nil => intro fs tr; rfl
  | cons ln rest ih =>
    intro fs tr
    cases testRun with
    | false =>
      simp only [symLoop]
      by_cases hsl : containsSlash ln = true
      · simp [hsl, ih, mknods_append, mknods]
      · simp [hsl, ih, mknods_append, mknods]
    | true =>
      simp only [symLoop]
      simp [ih, mknods_append, mknods]

theorem mknods_ite_chown (c : Prop) [Decidable c] (p : Str) (a b : Nat) :
    mknods (if c then [Act.chown p a b] else []) = [] := by
  split <;> rfl

theorem mknods_ite_mkdirp (c : Prop) [Decidable c] (p : Str) :
    mknods (if c then [Act.mkdirp p] else []) = [] := by
  split <;> rfl

/-- C7: with `partitions = N > 0` (outside test mode, on an empty
filesystem so every creation is visible as an `mknod`), `create_node`
creates exactly N additional nodes beyond the primary one, at the paths
obtained by appending the decimal indices 1..N to the primary path, the
node for index i carrying device number (major, minor + i); none of these
paths equals the primary node's path. -/
theorem create_node_partition_nodes (root : Str) (fs : FS)
    (pw gr : Str → Option Nat) (u : UDevice) (N : Nat) (bits : Nat)
    (hp : u.partitions = (N : Int)) (hN : 0 < N) (ht : u.test_run = false)
    (hty : typeBits u.dtype = some bits) (hfs : fs.entries = []) :
    mknods (create_node root fs allOK pw gr u).trace =
      (root ++ '/' :: u.name, u.mode ||| bits, makedev u.major u.minor) ::
        (List.range' 1 N).map (fun i =>
          ((root ++ '/' :: u.name) ++ decChars i, u.mode ||| bits,
            makedev u.major (u.minor + i))) ∧
    ∀ i ∈ List.range' 1 N, (root ++ '/' :: u.name) ++ decChars i ≠ root ++ '/' :: u.name := by
  refine ⟨?_, fun i _ => append_decChars_ne _ i⟩
  simp only [create_node, hty]
  dsimp only
  rw [ht]
  simp only [if_true, eq_self_iff_true, ite_true]
  rw [make_node_create_allOK _ _ _ _ _ _ _ (by rw [hfs]; rfl)]
  dsimp only
  simp only [ne_eq, not_true_eq_false, if_false, ite_false, if_neg (by omega : ¬(0 : Int) ≠ 0)]
  rw [hp]
  simp only [Int.toNat_ofNat]
  rw [symLoop_mknods]
  have hcond : (0 : Int) < (N : Int) ∧ True := ⟨by exact_mod_cast hN, trivial⟩
  rw [if_pos hcond]
  rw [partLoop_mknods _ _ _ _ _ _ N 1 _ _ ?_]
  · simp [mknods_append, mknods, mknods_ite_chown, mknods_ite_mkdirp]
  · intro j hj
    rw [hfs]
    show fsGet (fsStore [] (root ++ '/' :: u.name) _) _ = none
    simp only [fsStore, fsGet]
    rw [if_neg]
    intro hpp
    exact append_decChars_ne _ j hpp.symm

/-- Witness for the C7 theorem: three partitions on `sda`, minor 0. -/
theorem create_node_partition_nodes_witness :
    mknods (create_node ['r'] ⟨[], 0⟩ allOK noLookup noLookup
      ⟨"sda".toList, "sda".toList, "/block/sda".toList, [], 'b', 8, 0, 432, [], [], [],
        3, false⟩).trace =
      (['r'] ++ '/' :: "sda".toList, 432 ||| S_IFBLK, makedev 8 0) ::
        (List.range' 1 3).map (fun i =>
          ((['r'] ++ '/' :: "sda".toList) ++ decChars i, 432 ||| S_IFBLK,
            makedev 8 (0 + i))) ∧
    ∀ i ∈ List.range' 1 3,
      (['r'] ++ '/' :: "sda".toList) ++ decChars i ≠ ['r'] ++ '/' :: "sda".toList :=
  create_node_partition_nodes ['r'] ⟨[], 0⟩ noLookup noLookup
    ⟨"sda".toList, "sda".toList, "/block/sda".toList, [], 'b', 8, 0, 432, [], [], [],
      3, false⟩ 3 S_IFBLK (by decide) (by decide) (by decide) (by decide) (by decide)

theorem scanIT_nil_left (b : List Char) (i t : Nat) : scanIT [] b i t = (i, t) := by
  cases b <;> rfl

theorem scanIT_nil_right (a : List Char) (i t : Nat) : scanIT a [] i t = (i, t) := by
  cases a <;> rfl

/-- The scan with arbitrary accumulators, expressed through the scan
started at `(0, 0)`: the matched length shifts by `i`, the tail is the
initial `t` when no `'/'` was matched and shifts by `i` otherwise. -/
theorem scanIT_shift (a : List Char) : ∀ (b : List Char) (i t : Nat),
    scanIT a b i t =
      ((scanIT a b 0 0).1 + i,
       if (scanIT a b 0 0).2 = 0 then t else (scanIT a b 0 0).2 + i) := by
  induction a with
  | nil =>
    intro b i t
    rw [scanIT_nil_left, scanIT_nil_left]
    simp
  | cons x as ih =>
    intro b i t
    cases b with
    | nil =>
      rw [scanIT_nil_right, scanIT_nil_right]
      simp
    | cons y bs =>
      by_cases hxy : x = y
      · subst hxy
        by_cases hs : x = '/'
        · subst hs
          simp only [scanIT, eq_self_iff_true, ite_true, Nat.zero_add]
          rw [ih bs (i + 1) (i + 1), ih bs 1 1]
          rcases hT : (scanIT as bs 0 0).2 with _ | T' <;>
            simp [hT, Prod.ext_iff] <;> omega
        · simp only [scanIT, eq_self_iff_true, ite_true, if_neg hs, Nat.zero_add]
          rw [ih bs (i + 1) t, ih bs 1 0]
          rcases hT : (scanIT as bs 0 0).2 with _ | T' <;>
            simp [hT, Prod.ext_iff] <;> omega
      · simp [scanIT, hxy]

/-- The scan walks through a shared slash-free prefix. -/
theorem scanIT_append (s : List Char) : ∀ (a b : List Char) (i t : Nat), '/' ∉ s →
    scanIT (s ++ a) (s ++ b) i t = scanIT a b (i + s.length) t := by
  induction s with
  | nil =>
    intro a b i t hs
    simp
  | cons c s' ih =>
    intro a b i t hs
    have hc : c ≠ '/' := fun h => hs (h ▸ List.mem_cons_self c s')
    have hs' : '/' ∉ s' := fun h => hs (List.mem_cons_of_mem c h)
    simp only [List.cons_append, scanIT, eq_self_iff_true, ite_true, if_neg hc]
    show scanIT (s' ++ a) (s' ++ b) (i + 1) t = scanIT a b (i + (c :: s').length) t
    rw [ih a b (i + 1) t hs']
    congr 1
    simp [List.length_cons]
    omega

/-- The scan across one shared segment followed by a shared `'/'`. -/
theorem scanIT_seg (s a b : List Char) (hs : '/' ∉ s) :
    scanIT (s ++ '/' :: a) (s ++ '/' :: b) 0 0 =
      ((scanIT a b 0 0).1 + (s.length + 1),
       (if (scanIT a b 0 0).2 = 0 then 0 else (scanIT a b 0 0).2) + (s.length + 1)) := by
  rw [scanIT_append s ('/' :: a) ('/' :: b) 0 0 hs]
  simp only [scanIT, eq_self_iff_true, ite_true, Nat.zero_add]
  rw [scanIT_shift a b (s.length + 1) (s.length + 1)]
  rcases hT : (scanIT a b 0 0).2 with _ | T' <;> simp [hT, Prod.ext_iff] <;> omega

/-- When the leading segments differ, the scan stops inside them: the
matched length is at most the link-side segment length and the tail stays
at its initial value. -/
theorem scanIT_diverge (u : List Char) : ∀ (v r1 r2 : List Char) (i t : Nat),
    '/' ∉ u → '/' ∉ v → u ≠ v →
    (r1 = [] ∨ ∃ x, r1 = '/' :: x) → (r2 = [] ∨ ∃ x, r2 = '/' :: x) →
    ∃ k, scanIT (u ++ r1) (v ++ r2) i t = (i + k, t) ∧ k ≤ v.length := by
  induction u with
  | nil =>
    intro v r1 r2 i t hu hv huv h1 h2
    refine ⟨0, ?_, Nat.zero_le _⟩
    rcases h1 with rfl | ⟨x, rfl⟩
    · rw [List.nil_append, scanIT_nil_left]
      simp
    · cases v with
      | nil => exact absurd rfl huv
      | cons d v' =>
        have hd : d ≠ '/' := fun h => hv (h ▸ List.mem_cons_self d v')
        have hd' : ¬('/' = d) := fun h => hd h.symm
        simp only [List.nil_append, List.cons_append, scanIT, if_neg hd']
        simp
  | cons c u' ih =>
    intro v r1 r2 i t hu hv huv h1 h2
    have hc : c ≠ '/' := fun h => hu (h ▸ List.mem_cons_self c u')
    have hu' : '/' ∉ u' := fun h => hu (List.mem_cons_of_mem c h)
    cases v with
    | nil =>
      refine ⟨0, ?_, Nat.le_refl _⟩
      rcases h2 with rfl | ⟨x, rfl⟩
      · rw [List.append_nil, scanIT_nil_right]
        simp
      · simp only [List.cons_append, List.nil_append, scanIT, if_neg hc]
        simp
    | cons d v' =>
      have hv' : '/' ∉ v' := fun h => hv (List.mem_cons_of_mem d h)
      by_cases hcd : c = d
      · subst hcd
        have huv' : u' ≠ v' := fun h => huv (h ▸ rfl)
        obtain ⟨k, hk, hkle⟩ := ih v' r1 r2 (i + 1) t hu' hv' huv' h1 h2
        refine ⟨k + 1, ?_, by simpa using Nat.succ_le_succ hkle⟩
        simp only [List.cons_append, scanIT, eq_self_iff_true, ite_true, if_neg hc]
        show scanIT (u' ++ r1) (v' ++ r2) (i + 1) t = (i + (k + 1), t)
        rw [hk]
        simp only [Prod.mk.injEq]
        exact ⟨by omega, trivial⟩
      · refine ⟨0, ?_, Nat.zero_le _⟩
        simp only [List.cons_append, scanIT, if_neg hcd]
        simp

/-- The dots loop produces one `"../"` per slash. -/
theorem mkdots_eq (l : List Char) : mkdots l = dots (l.count '/') := by
  induction l with
  | nil => rfl
  | cons c cs ih =>
    by_cases hc : c = '/'
    · subst hc
      simp [mkdots, List.count_cons, ih, dots]
    · simp [mkdots, List.count_cons, hc, ih, fun h : c = '/' => hc h]

theorem splitOnChar_ne_nil (sep : Char) (l : List Char) : splitOnChar sep l ≠ [] := by
  induction l with
  | nil => simp [splitOnChar]
  | cons c cs ih =>
    by_cases hc : c = sep
    · simp [splitOnChar, hc]
    · simp only [splitOnChar, if_neg hc]
      rcases h : splitOnChar sep cs with _ | ⟨t, ts⟩
      · exact absurd h ih
      · simp

theorem splitOnChar_sep_cons (sep : Char) (s r : List Char) (hs : sep ∉ s) :
    splitOnChar sep (s ++ sep :: r) = s :: splitOnChar sep r := by
  induction s with
  | nil => simp [splitOnChar]
  | cons c s' ih =>
    have hc : c ≠ sep := fun h => hs (h ▸ List.mem_cons_self c s')
    have hs' : sep ∉ s' := fun h => hs (List.mem_cons_of_mem c h)
    simp only [List.cons_append, splitOnChar, if_neg hc]
    show (match splitOnChar sep (s' ++ sep :: r) with
      | [] => [[c]]
      | t :: ts => (c :: t) :: ts) = (c :: s') :: splitOnChar sep r
    rw [ih hs']

theorem splitOnChar_no_sep (sep : Char) (s : List Char) (hs : sep ∉ s) :
    splitOnChar sep s = [s] := by
  induction s with
  | nil => rfl
  | cons c s' ih =>
    have hc : c ≠ sep := fun h => hs (h ▸ List.mem_cons_self c s')
    have hs' : sep ∉ s' := fun h => hs (List.mem_cons_of_mem c h)
    simp only [splitOnChar, if_neg hc, ih hs']

theorem joinPath_cons (s : Str) (rest : List Str) (h : rest ≠ []) :
    joinPath (s :: rest) = s ++ '/' :: joinPath rest := by
  cases rest with
  | nil => exact absurd rfl h
  | cons r rs => rfl

theorem splitPath_join (ns : List Str) (h : ns ≠ []) (hv : ∀ x ∈ ns, '/' ∉ x) :
    splitPath (joinPath ns) = ns := by
  induction ns with
  | nil => exact absurd rfl h
  | cons n0 rest ih =>
    cases rest with
    | nil =>
      show splitOnChar '/' n0 = [n0]
      exact splitOnChar_no_sep '/' n0 (hv n0 (List.mem_cons_self n0 []))
    | cons r rs =>
      rw [joinPath_cons n0 (r :: rs) (by simp)]
      rw [show splitPath (n0 ++ '/' :: joinPath (r :: rs)) =
            n0 :: splitPath (joinPath (r :: rs)) from
          splitOnChar_sep_cons '/' n0 _ (hv n0 (List.mem_cons_self n0 _))]
      rw [ih (by simp) (fun x hx => hv x (List.mem_cons_of_mem n0 hx))]

theorem splitPath_dots (k : Nat) (X : List Char) :
    splitPath (dots k ++ X) = List.replicate k ['.', '.'] ++ splitPath X := by
  induction k with
  | zero => simp [dots]
  | succ k ih =>
    have h : splitPath (dots (k + 1) ++ X) =
        ['.', '.'] :: splitPath (dots k ++ X) :=
      splitOnChar_sep_cons '/' ['.', '.'] (dots k ++ X) (by decide)
    rw [h, ih]
    simp [List.replicate_succ]

theorem resolve_push (segs : List Str) : ∀ (dir : List Str),
    (∀ x ∈ segs, validSeg x) → resolve dir segs = some (dir ++ segs) := by
  induction segs with
  | nil => intro dir hv; simp [resolve]
  | cons seg rest ih =>
    intro dir hv
    obtain ⟨hne, hnsl, hnd, hndd⟩ := hv seg (List.mem_cons_self seg rest)
    simp only [resolve, if_neg hndd, if_neg hnd, if_neg hne]
    rw [ih (dir ++ [seg]) (fun x hx => hv x (List.mem_cons_of_mem seg hx))]
    simp

theorem resolve_pop (k : Nat) : ∀ (dir : List Str) (segs : List Str),
    dir.length = k →
    resolve dir (List.replicate k ['.', '.'] ++ segs) = resolve [] segs := by
  induction k with
  | zero =>
    intro dir segs hd
    rw [List.eq_nil_of_length_eq_zero hd]
    simp
  | succ k ih =>
    intro dir segs hd
    cases dir with
    | nil => simp at hd
    | cons d dir' =>
      simp only [List.replicate_succ, List.cons_append, resolve, eq_self_iff_true,
        ite_true, if_pos rfl]
      show resolve (d :: dir').dropLast (List.replicate k ['.', '.'] ++ segs) =
        resolve [] segs
      rw [ih (d :: dir').dropLast segs (by simp [List.length_dropLast, hd])]

theorem resolve_cons (segs : List Str) : ∀ (dir res : List Str) (d : Str),
    resolve dir segs = some res → resolve (d :: dir) segs = some (d :: res) := by
  induction segs with
  | nil =>
    intro dir res d h
    simp only [resolve] at h ⊢
    injection h with h
    rw [h]
  | cons seg rest ih =>
    intro dir res d h
    by_cases hdd : seg = ['.', '.']
    · subst hdd
      simp only [resolve, if_pos rfl] at h ⊢
      cases dir with
      | nil => exact Option.noConfusion h
      | cons e dir' =>
        have hdl : (d :: e :: dir').dropLast = d :: (e :: dir').dropLast := rfl
        rw [hdl]
        exact ih _ res d h
    · by_cases hd1 : seg = ['.']
      · subst hd1
        simp only [resolve, if_neg hdd, if_pos rfl] at h ⊢
        exact ih _ res d h
      · by_cases hd0 : seg = []
        · subst hd0
          simp only [resolve, if_neg hdd, if_neg hd1, if_pos rfl] at h ⊢
          exact ih _ res d h
        · simp only [resolve, if_neg hdd, if_neg hd1, if_neg hd0] at h ⊢
          have : d :: dir ++ [seg] = d :: (dir ++ [seg]) := rfl
          rw [this]
          exact ih _ res d h

theorem drop_append_len (s : List Char) : ∀ (x : List Char) (n : Nat),
    (s ++ x).drop (s.length + n) = x.drop n := by
  induction s with
  | nil => intro x n; simp
  | cons c s' ih =>
    intro x n
    have h1 : (c :: s').length + n = (s'.length + n) + 1 := by simp; omega
    rw [h1, List.cons_append, List.drop_succ_cons, ih x n]

theorem count_slash_join (ns : List Str) (h : ns ≠ []) (hv : ∀ x ∈ ns, '/' ∉ x) :
    (joinPath ns).count '/' = ns.length - 1 := by
  induction ns with
  | nil => exact absurd rfl h
  | cons n0 rest ih =>
    have h1 : n0.count '/' = 0 :=
      List.count_eq_zero_of_not_mem (hv n0 (List.mem_cons_self n0 _))
    cases rest with
    | nil => simpa [joinPath] using h1
    | cons r rs =>
      have h0 : (joinPath (r :: rs)).count '/' = (r :: rs).length - 1 :=
        ih (by simp) (fun x hx => hv x (List.mem_cons_of_mem n0 hx))
      rw [joinPath_cons n0 (r :: rs) (by simp)]
      simp [List.count_append, List.count_cons, h0, h1]

/-- The symlink-target computation is invariant under a shared leading
path segment of `name` and `linkname`. -/
theorem linktarget_seg (s a b : List Char) (hs : '/' ∉ s) :
    linktarget (s ++ '/' :: a) (s ++ '/' :: b) = linktarget a b := by
  unfold linktarget
  rw [scanIT_seg s a b hs]
  have hd : ∀ (x : List Char) (n : Nat),
      (s ++ '/' :: x).drop (n + (s.length + 1)) = x.drop n := by
    intro x n
    have hx : s ++ '/' :: x = (s ++ ['/']) ++ x := by simp
    have hlen : (s ++ ['/']).length = s.length + 1 := by simp
    rw [hx, Nat.add_comm n (s.length + 1), ← hlen, drop_append_len]
  rw [hd b, hd a]
  by_cases hT : (scanIT a b 0 0).2 = 0
  · simp [hT]
  · simp [hT]

theorem scanIT_self_link (s r : List Char) (hs : '/' ∉ s) :
    scanIT s (s ++ r) 0 0 = (s.length, 0) := by
  have h := scanIT_append s [] r 0 0 hs
  rw [List.append_nil] at h
  rw [h, scanIT_nil_left]
  simp

theorem scanIT_self_name (s r : List Char) (hs : '/' ∉ s) :
    scanIT (s ++ r) s 0 0 = (s.length, 0) := by
  have h := scanIT_append s r [] 0 0 hs
  rw [List.append_nil] at h
  rw [h, scanIT_nil_right]
  simp

theorem resolve_dots_path (dir : List Str) (L : Nat) (ns : List Str)
    (hL : dir.length = L) (hns : ns ≠ []) (hv : ∀ x ∈ ns, validSeg x) :
    resolve dir (splitPath (dots L ++ joinPath ns)) = some ns := by
  rw [splitPath_dots, splitPath_join ns hns (fun x hx => (hv x hx).2.1)]
  rw [resolve_pop L dir ns hL]
  simpa using resolve_push ns [] hv

theorem count_slash_drop (t : List Char) (k : Nat) (ht : '/' ∉ t) :
    (t.drop k).count '/' = 0 := by
  have hsub : List.Sublist (t.drop k) t := List.drop_sublist k t
  have h0 : t.count '/' = 0 := List.count_eq_zero_of_not_mem ht
  have := hsub.count_le '/'
  omega

theorem drop_append_le (t r : List Char) : ∀ k, k ≤ t.length →
    (t ++ r).drop k = t.drop k ++ r := by
  induction t with
  | nil =>
    intro k hk
    have hk0 : k = 0 := by simpa using hk
    subst hk0
    simp
  | cons c t' ih =>
    intro k hk
    cases k with
    | zero => simp
    | succ k' =>
      simp only [List.cons_append, List.drop_succ_cons]
      exact ih k' (by simpa using hk)

theorem scanIT_refl (s : List Char) (hs : '/' ∉ s) : scanIT s s 0 0 = (s.length, 0) := by
  have h := scanIT_self_link s [] hs
  rwa [List.append_nil] at h

/-- C3: for every primary name and symlink token made of canonical path
segments, the relative target computed by `create_node`'s optimizer
(common-prefix scan, one `"../"` per remaining `'/'` in the token, then the
suffix of the name past the last shared `'/'`), when resolved from the
directory containing the symlink (the token's directory, relative to the
root), denotes exactly the primary node's path `root/name` (the name's
segments, relative to the same root). -/
theorem create_node_symlink_target_resolves (ns : List Str) : ∀ (ts : List Str),
    ns ≠ [] → ts ≠ [] → (∀ x ∈ ns, validSeg x) → (∀ x ∈ ts, validSeg x) →
    resolve ts.dropLast (splitPath (linktarget (joinPath ns) (joinPath ts))) = some ns := by
  induction ns with
  | nil => intro ts hns; exact absurd rfl hns
  | cons n0 ns' ih =>
    intro ts hns hts hvn hvt
    cases ts with
    | nil => exact absurd rfl hts
    | cons t0 ts' =>
      obtain ⟨hn0ne, hn0sl, -, -⟩ := hvn n0 (List.mem_cons_self _ _)
      obtain ⟨ht0ne, ht0sl, -, -⟩ := hvt t0 (List.mem_cons_self _ _)
      by_cases hh : n0 = t0
      · subst hh
        cases ns' with
        | nil =>
          cases ts' with
          | nil =>
            have hlt : linktarget (joinPath [n0]) (joinPath [n0]) = n0 := by
              show linktarget n0 n0 = n0
              unfold linktarget
              rw [scanIT_refl n0 hn0sl]
              simp [List.drop_length, mkdots]
            rw [hlt]
            rw [show splitPath n0 = [n0] from splitOnChar_no_sep '/' n0 hn0sl]
            show resolve [] [n0] = some [n0]
            simpa using resolve_push [n0] [] hvn
          | cons t1 ts'' =>
            have hvt' : ∀ x ∈ t1 :: ts'', validSeg x :=
              fun x hx => hvt x (List.mem_cons_of_mem _ hx)
            have hsc : scanIT (joinPath [n0]) (joinPath (n0 :: t1 :: ts'')) 0 0 =
                (n0.length, 0) := by
              show scanIT n0 (n0 ++ '/' :: joinPath (t1 :: ts'')) 0 0 = (n0.length, 0)
              exact scanIT_self_link n0 ('/' :: joinPath (t1 :: ts'')) hn0sl
            have hlt : linktarget (joinPath [n0]) (joinPath (n0 :: t1 :: ts'')) =
                dots ((t1 :: ts'').length) ++ joinPath [n0] := by
              unfold linktarget
              rw [hsc]
              have hdrop : (joinPath (n0 :: t1 :: ts'')).drop n0.length =
                  '/' :: joinPath (t1 :: ts'') := by
                show (n0 ++ '/' :: joinPath (t1 :: ts'')).drop n0.length =
                  '/' :: joinPath (t1 :: ts'')
                have h := drop_append_len n0 ('/' :: joinPath (t1 :: ts'')) 0
                simpa using h
              rw [hdrop]
              have hc1 : (joinPath (t1 :: ts'')).count '/' = (t1 :: ts'').length - 1 :=
                count_slash_join _ (by simp) (fun x hx => (hvt' x hx).2.1)
              have hM : mkdots ('/' :: joinPath (t1 :: ts'')) =
                  dots ((t1 :: ts'').length) := by
                rw [mkdots_eq]
                congr 1
                simp only [List.count_cons, hc1, List.length_cons]
                simp
              rw [hM]
              simp
            rw [hlt]
            apply resolve_dots_path
            · simp [List.length_dropLast]
            · simp
            · exact hvn
        | cons nn1 ns'' =>
          cases ts' with
          | nil =>
            have hsc : scanIT (joinPath (n0 :: nn1 :: ns'')) (joinPath [n0]) 0 0 =
                (n0.length, 0) := by
              show scanIT (n0 ++ '/' :: joinPath (nn1 :: ns'')) n0 0 0 = (n0.length, 0)
              exact scanIT_self_name n0 ('/' :: joinPath (nn1 :: ns'')) hn0sl
            have hlt : linktarget (joinPath (n0 :: nn1 :: ns'')) (joinPath [n0]) =
                joinPath (n0 :: nn1 :: ns'') := by
              unfold linktarget
              rw [hsc]
              have hdrop : (joinPath [n0]).drop n0.length = [] := by
                show n0.drop n0.length = []
                simp [List.drop_length]
              rw [hdrop]
              simp [mkdots]
            rw [hlt]
            rw [splitPath_join _ (by simp) (fun x hx => (hvn x hx).2.1)]
            show resolve [] (n0 :: nn1 :: ns'') = some (n0 :: nn1 :: ns'')
            simpa using resolve_push (n0 :: nn1 :: ns'') [] hvn
          | cons t1 ts'' =>
            have hlt : linktarget (joinPath (n0 :: nn1 :: ns''))
                (joinPath (n0 :: t1 :: ts'')) =
                linktarget (joinPath (nn1 :: ns'')) (joinPath (t1 :: ts'')) := by
              show linktarget (n0 ++ '/' :: joinPath (nn1 :: ns''))
                (n0 ++ '/' :: joinPath (t1 :: ts'')) = _
              exact linktarget_seg n0 _ _ hn0sl
            have hres := ih (t1 :: ts'') (by simp) (by simp)
              (fun x hx => hvn x (List.mem_cons_of_mem _ hx))
              (fun x hx => hvt x (List.mem_cons_of_mem _ hx))
            rw [hlt]
            show resolve (n0 :: (t1 :: ts'').dropLast)
              (splitPath (linktarget (joinPath (nn1 :: ns'')) (joinPath (t1 :: ts'')))) =
              some (n0 :: nn1 :: ns'')
            exact resolve_cons _ _ _ n0 hres
      · obtain ⟨r1, hr1, hshape1⟩ :
            ∃ r, joinPath (n0 :: ns') = n0 ++ r ∧ (r = [] ∨ ∃ x, r = '/' :: x) := by
          cases ns' with
          | nil => exact ⟨[], by simp [joinPath], Or.inl rfl⟩
          | cons a as => exact ⟨'/' :: joinPath (a :: as), rfl, Or.inr ⟨_, rfl⟩⟩
        obtain ⟨r2, hr2, hshape2, hcnt2⟩ :
            ∃ r, joinPath (t0 :: ts') = t0 ++ r ∧ (r = [] ∨ ∃ x, r = '/' :: x) ∧
              r.count '/' = ts'.length := by
          cases ts' with
          | nil => exact ⟨[], by simp [joinPath], Or.inl rfl, by simp⟩
          | cons a as =>
            refine ⟨'/' :: joinPath (a :: as), rfl, Or.inr ⟨_, rfl⟩, ?_⟩
            have hc := count_slash_join (a :: as) (by simp)
              (fun x hx => (hvt x (List.mem_cons_of_mem _ hx)).2.1)
            simp only [List.count_cons, hc, List.length_cons]
            simp
        obtain ⟨k, hk, hkle⟩ :=
          scanIT_diverge n0 t0 r1 r2 0 0 hn0sl ht0sl hh hshape1 hshape2
        have hlt : linktarget (joinPath (n0 :: ns')) (joinPath (t0 :: ts')) =
            dots (ts'.length) ++ joinPath (n0 :: ns') := by
          unfold linktarget
          rw [hr1, hr2, hk]
          simp only [Nat.zero_add, List.drop_zero]
          congr 1
          rw [drop_append_le t0 r2 k hkle, mkdots_eq]
          congr 1
          rw [List.count_append, count_slash_drop t0 k ht0sl, hcnt2]
          simp
        rw [hlt]
        apply resolve_dots_path
        · simp [List.length_dropLast]
        · simp
        · exact hvn

/-- Witness for the C3 theorem at the specification's own example:
name `disk/sda`, token `disk/by-id/foo`, computed target `../sda`. -/
theorem create_node_symlink_target_resolves_witness :
    resolve (["disk".toList, "by-id".toList, "foo".toList] : List Str).dropLast
      (splitPath (linktarget (joinPath ["disk".toList, "sda".toList])
        (joinPath ["disk".toList, "by-id".toList, "foo".toList]))) =
      some ["disk".toList, "sda".toList] :=
  create_node_symlink_target_resolves ["disk".toList, "sda".toList]
    ["disk".toList, "by-id".toList, "foo".toList]
    (by decide) (by decide) (by decide) (by decide)

/-- The spec's example value check: the computed relative target itself. -/
theorem linktarget_spec_example :
    linktarget "disk/sda".toList "disk/by-id/foo".toList = "../sda".toList := by
  decide
